import Mathlib

/-!
Verification development for the KubeSage control plane.

The definitions below are a shallow embedding of the repository's Python
services: the k8sgpt analysis service (`k8sgpt_service/app/services.py`),
the kubeconfig credential service (`kubeconfig_service/app/routes.py` and
`tasks.py`), and the shared Redis cache wrapper
(`kubeconfig_service/app/cache.py`).  External effects (subprocess
execution, the kubeconfig-service HTTP call, generated UUIDs, the clock)
enter as explicit inputs; the relational store is a list of rows; the
cache is a list of keyed entries with absolute expiry deadlines.
-/

namespace KubeSage

/-- Python values as they flow through `json.dumps` / `json.loads` and the
route handlers.  `datetime` models `datetime.datetime` objects, which
`json.dumps` rejects. -/
inductive PyVal where
  | null
  | bool (b : Bool)
  | int (n : Int)
  | str (s : String)
  | list (xs : List PyVal)
  | dict (kvs : List (String × PyVal))
  | datetime (t : Nat)

/-- Whitespace characters recognised by `json` and `str.strip`. -/
def isWsChar (c : Char) : Bool :=
  c.toNat = 32 || c.toNat = 9 || c.toNat = 10 || c.toNat = 13

/-- ASCII decimal digit test. -/
def isDigitChar (c : Char) : Bool :=
  48 ≤ c.toNat && c.toNat ≤ 57

/-- The character for decimal digit `d`. -/
def digitChar (d : Nat) : Char := Char.ofNat (48 + d)

/-- Decimal digits of a positive number, most significant first; the first
argument is recursion fuel. -/
def natDigits : Nat → Nat → List Char
  | 0, _ => []
  | _ + 1, 0 => []
  | fuel + 1, n + 1 => natDigits fuel ((n + 1) / 10) ++ [digitChar ((n + 1) % 10)]

/-- Decimal rendering of a natural number. -/
def printNat (n : Nat) : List Char :=
  if n = 0 then ['0'] else natDigits n n

/-- Decimal rendering of an integer, as `json.dumps` and f-strings print it. -/
def printInt (n : Int) : List Char :=
  if n < 0 then '-' :: printNat n.natAbs else printNat n.toNat

/-- Numeric value of a digit list (horner accumulation). -/
def digitsVal (cs : List Char) : Nat :=
  cs.foldl (fun acc c => acc * 10 + (c.toNat - 48)) 0

/-- Parse a nonempty run of digits; fails when none are present. -/
def parseNatTok (cs : List Char) : Option (Nat × List Char) :=
  let ds := cs.takeWhile isDigitChar
  if ds.isEmpty then none else some (digitsVal ds, cs.dropWhile isDigitChar)

/-- Parse a JSON integer (optional leading minus). -/
def parseNum : List Char → Option (Int × List Char)
  | [] => none
  | c :: rest =>
    if c = '-' then (parseNatTok rest).map (fun p => (-(p.1 : Int), p.2))
    else (parseNatTok (c :: rest)).map (fun p => ((p.1 : Int), p.2))

/-- Escape the characters that the serializer protects inside string
literals (the quote and the backslash). -/
def escapeChars : List Char → List Char
  | [] => []
  | c :: cs =>
    if c = '"' || c = '\\' then '\\' :: c :: escapeChars cs
    else c :: escapeChars cs

/-- Parse the body of a string literal, after the opening quote; returns
the unescaped characters and the input after the closing quote. -/
def parseStrBody : List Char → Option (List Char × List Char)
  | [] => none
  | c :: rest =>
    if c = '\\' then
      match rest with
      | [] => none
      | d :: rest₂ => (parseStrBody rest₂).map (fun p => (d :: p.1, p.2))
    else if c = '"' then some ([], rest)
    else (parseStrBody rest).map (fun p => (c :: p.1, p.2))

/-- Serialized form of an object key plus the `": "` separator. -/
def dumpKey (k : String) : List Char :=
  '"' :: escapeChars k.data ++ ['"', ':', ' ']

mutual

/-- Model of `json.dumps`: serialize a Python value, or fail (`TypeError`)
when the value contains a `datetime`.  Separators follow the library
default `", "` / `": "`. -/
def dumpVal : PyVal → Option (List Char)
  | .null => some "null".data
  | .bool true => some "true".data
  | .bool false => some "false".data
  | .int n => some (printInt n)
  | .str s => some ('"' :: escapeChars s.data ++ ['"'])
  | .list xs => (dumpElems xs).map (fun cs => '[' :: cs ++ [']'])
  | .dict kvs => (dumpMembers kvs).map (fun cs => '\x7b' :: cs ++ ['\x7d'])
  | .datetime _ => none

/-- Serialize array elements, `", "`-separated. -/
def dumpElems : List PyVal → Option (List Char)
  | [] => some []
  | [x] => dumpVal x
  | x :: xs => do
    let cx ← dumpVal x
    let cxs ← dumpElems xs
    pure (cx ++ ',' :: ' ' :: cxs)

/-- Serialize object members, `", "`-separated. -/
def dumpMembers : List (String × PyVal) → Option (List Char)
  | [] => some []
  | [(k, v)] => (dumpVal v).map (fun cv => dumpKey k ++ cv)
  | (k, v) :: kvs => do
    let cv ← dumpVal v
    let cs ← dumpMembers kvs
    pure (dumpKey k ++ cv ++ ',' :: ' ' :: cs)

end

/-- Drop leading JSON whitespace. -/
def skipWs (cs : List Char) : List Char := cs.dropWhile isWsChar

/-- Consume an expected literal suffix of a keyword. -/
def dropLit : List Char → List Char → Option (List Char)
  | [], cs => some cs
  | p :: ps, c :: cs => if c = p then dropLit ps cs else none
  | _ :: _, [] => none

/-- Parse a number and wrap it as a value. -/
def parseNumVal (cs : List Char) : Option (PyVal × List Char) :=
  (parseNum cs).map (fun p => (PyVal.int p.1, p.2))

mutual

/-- Model of the `json.loads` grammar (recursive descent, fuel-bounded):
parse one value and return the unconsumed suffix. -/
def parseVal : Nat → List Char → Option (PyVal × List Char)
  | 0, _ => none
  | fuel + 1, cs =>
    match skipWs cs with
    | [] => none
    | c :: r =>
      if c = 'n' then (dropLit "ull".data r).map (fun r₂ => (PyVal.null, r₂))
      else if c = 't' then (dropLit "rue".data r).map (fun r₂ => (PyVal.bool true, r₂))
      else if c = 'f' then (dropLit "alse".data r).map (fun r₂ => (PyVal.bool false, r₂))
      else if c = '"' then (parseStrBody r).map (fun p => (PyVal.str ⟨p.1⟩, p.2))
      else if c = '[' then parseListTail fuel r
      else if c = '\x7b' then parseDictTail fuel r
      else if c = '-' || isDigitChar c then parseNumVal (c :: r)
      else none

/-- The input after an opening bracket: an empty array or its elements. -/
def parseListTail : Nat → List Char → Option (PyVal × List Char)
  | 0, _ => none
  | fuel + 1, r =>
    match skipWs r with
    | [] => none
    | d :: r₂ =>
      if d = ']' then some (PyVal.list [], r₂)
      else (parseElems fuel (d :: r₂)).map (fun p => (PyVal.list p.1, p.2))

/-- The input after an opening brace: an empty object or its members. -/
def parseDictTail : Nat → List Char → Option (PyVal × List Char)
  | 0, _ => none
  | fuel + 1, r =>
    match skipWs r with
    | [] => none
    | d :: r₂ =>
      if d = '\x7d' then some (PyVal.dict [], r₂)
      else (parseMembers fuel (d :: r₂)).map (fun p => (PyVal.dict p.1, p.2))

/-- Parse the elements of a nonempty array, up to and including the
closing bracket. -/
def parseElems : Nat → List Char → Option (List PyVal × List Char)
  | 0, _ => none
  | fuel + 1, cs => (parseVal fuel cs).bind (fun p => parseElemsSep fuel p.1 p.2)

/-- After one array element: a comma continues, a bracket closes. -/
def parseElemsSep : Nat → PyVal → List Char → Option (List PyVal × List Char)
  | 0, _, _ => none
  | fuel + 1, v, r =>
    match skipWs r with
    | [] => none
    | d :: r₂ =>
      if d = ',' then (parseElems fuel r₂).map (fun p => (v :: p.1, p.2))
      else if d = ']' then some ([v], r₂)
      else none

/-- Parse the members of a nonempty object, up to and including the
closing brace. -/
def parseMembers : Nat → List Char → Option (List (String × PyVal) × List Char)
  | 0, _ => none
  | fuel + 1, cs =>
    match skipWs cs with
    | [] => none
    | c :: r =>
      if c = '"' then (parseStrBody r).bind (fun q => parseMemberColon fuel q.1 q.2)
      else none

/-- After an object key: expect the colon separator, then the value. -/
def parseMemberColon : Nat → List Char → List Char →
    Option (List (String × PyVal) × List Char)
  | 0, _, _ => none
  | fuel + 1, kcs, r₁ =>
    match skipWs r₁ with
    | [] => none
    | d :: r₂ =>
      if d = ':' then (parseVal fuel r₂).bind (fun q => parseMemberSep fuel kcs q.1 q.2)
      else none

/-- After one object member: a comma continues, a brace closes. -/
def parseMemberSep : Nat → List Char → PyVal → List Char →
    Option (List (String × PyVal) × List Char)
  | 0, _, _, _ => none
  | fuel + 1, kcs, v, r₃ =>
    match skipWs r₃ with
    | [] => none
    | e :: r₄ =>
      if e = ',' then (parseMembers fuel r₄).map (fun p => ((⟨kcs⟩, v) :: p.1, p.2))
      else if e = '\x7d' then some ([(⟨kcs⟩, v)], r₄)
      else none

end

/-- Model of `json.loads` on a character list: the whole input must be one
value, up to surrounding whitespace.  The fuel is generous enough for any
serialized value of this length. -/
def loadsChars (cs : List Char) : Option PyVal :=
  match parseVal (6 * cs.length + 6) cs with
  | some (v, rest) => if skipWs rest = [] then some v else none
  | none => none

/-- Model of `json.loads`. -/
def loads (s : String) : Option PyVal := loadsChars s.data

/-- Model of `json.dumps`, producing a string. -/
def dumps (v : PyVal) : Option String := (dumpVal v).map (fun cs => ⟨cs⟩)

/-! ### Round-trip: the parser inverts the serializer -/

theorem char_ne_of_toNat_ne {c d : Char} (h : c.toNat ≠ d.toNat) : c ≠ d :=
  fun hc => h (hc ▸ rfl)

theorem digitChar_toNat {d : Nat} (h : d < 10) : (digitChar d).toNat = 48 + d := by
  interval_cases d <;> decide

theorem digitChar_isDigit {d : Nat} (h : d < 10) : isDigitChar (digitChar d) = true := by
  simp [isDigitChar, digitChar_toNat h]
  omega

theorem natDigits_all_digits :
    ∀ fuel n c, c ∈ natDigits fuel n → isDigitChar c = true := by
  intro fuel
  induction fuel with
  | zero => intro n c hc; simp [natDigits] at hc
  | succ f ih =>
    intro n c hc
    match n with
    | 0 => simp [natDigits] at hc
    | m + 1 =>
      simp only [natDigits, List.mem_append, List.mem_singleton] at hc
      rcases hc with hc | hc
      · exact ih _ _ hc
      · subst hc; exact digitChar_isDigit (Nat.mod_lt _ (by omega))

theorem natDigits_ne_nil {fuel n : Nat} (hn : 0 < n) (hf : n ≤ fuel) :
    natDigits fuel n ≠ [] := by
  match fuel, n with
  | 0, n => omega
  | f + 1, 0 => omega
  | f + 1, m + 1 => simp [natDigits]

theorem foldl_natDigits :
    ∀ fuel n acc, n ≤ fuel →
      (natDigits fuel n).foldl (fun a c => a * 10 + (c.toNat - 48)) acc =
        acc * 10 ^ (natDigits fuel n).length + n := by
  intro fuel
  induction fuel with
  | zero =>
    intro n acc h
    interval_cases n
    simp [natDigits]
  | succ f ih =>
    intro n acc h
    match n with
    | 0 => simp [natDigits]
    | m + 1 =>
      have hdiv : (m + 1) / 10 ≤ f := by
        have := Nat.div_lt_self (Nat.succ_pos m) (by omega : 1 < 10)
        omega
      simp only [natDigits, List.foldl_append, List.foldl_cons, List.foldl_nil,
        List.length_append, List.length_cons, List.length_nil]
      rw [ih _ acc hdiv]
      have hmod : (digitChar ((m + 1) % 10)).toNat - 48 = (m + 1) % 10 := by
        rw [digitChar_toNat (Nat.mod_lt _ (by omega))]
        omega
      rw [hmod, pow_succ]
      have := Nat.div_add_mod (m + 1) 10
      set L := (natDigits f ((m + 1) / 10)).length
      calc (acc * 10 ^ L + (m + 1) / 10) * 10 + (m + 1) % 10
      _ = acc * (10 ^ L * 10) + ((m + 1) / 10 * 10 + (m + 1) % 10) := by ring
      _ = acc * (10 ^ L * 10) + (m + 1) := by omega

theorem printNat_all_digits {n : Nat} : ∀ c ∈ printNat n, isDigitChar c = true := by
  intro c hc
  by_cases h : n = 0
  · subst h; simp [printNat] at hc; subst hc; decide
  · simp only [printNat, if_neg h] at hc
    exact natDigits_all_digits _ _ _ hc

theorem printNat_ne_nil {n : Nat} : printNat n ≠ [] := by
  by_cases h : n = 0
  · subst h; simp [printNat]
  · simp only [printNat, if_neg h]
    exact natDigits_ne_nil (Nat.pos_of_ne_zero h) le_rfl

theorem digitsVal_printNat {n : Nat} : digitsVal (printNat n) = n := by
  by_cases h : n = 0
  · subst h; decide
  · simp only [printNat, if_neg h, digitsVal]
    rw [foldl_natDigits n n 0 le_rfl]
    simp

/-- The first character of the list (if any) falsifies `p`. -/
def headNot (p : Char → Bool) : List Char → Prop
  | [] => True
  | c :: _ => p c = false

/-- The first character of `rest` (if any) does not extend a digit run. -/
def headNotDigit (cs : List Char) : Prop := headNot isDigitChar cs

theorem takeWhile_append_all {p : Char → Bool} :
    ∀ l r, (∀ c ∈ l, p c = true) → headNot p r →
      (l ++ r).takeWhile p = l ∧ (l ++ r).dropWhile p = r := by
  intro l
  induction l with
  | nil =>
    intro r _ hr
    match r with
    | [] => simp
    | c :: t =>
      have hr₂ : p c = false := hr
      simp [List.takeWhile, List.dropWhile, hr₂]
  | cons x xs ih =>
    intro r hall hr
    have hx : p x = true := hall x (by simp)
    have := ih r (fun c hc => hall c (by simp [hc])) hr
    simp [List.takeWhile, List.dropWhile, hx, this.1, this.2]

theorem parseNatTok_print {n : Nat} {rest : List Char} (h : headNotDigit rest) :
    parseNatTok (printNat n ++ rest) = some (n, rest) := by
  have hsplit := takeWhile_append_all (printNat n) rest printNat_all_digits h
  simp only [parseNatTok, hsplit.1, hsplit.2]
  rw [if_neg (by simp [List.isEmpty_iff, printNat_ne_nil])]
  rw [digitsVal_printNat]

theorem parseNum_print {n : Int} {rest : List Char} (h : headNotDigit rest) :
    parseNum (printInt n ++ rest) = some (n, rest) := by
  by_cases hn : n < 0
  · simp only [printInt, if_pos hn, List.cons_append, parseNum, if_pos rfl]
    rw [parseNatTok_print h]
    have hv : -((n.natAbs : Nat) : Int) = n := by omega
    simp [hv]
    rw [abs_of_neg hn]
    ring
  · simp only [printInt, if_neg hn]
    obtain ⟨c, cs, hcs⟩ : ∃ c cs, printNat n.toNat = c :: cs := by
      match hp : printNat n.toNat with
      | [] => exact absurd hp printNat_ne_nil
      | c :: cs => exact ⟨c, cs, rfl⟩
    have hd : isDigitChar c = true :=
      printNat_all_digits (n := n.toNat) c (by rw [hcs]; simp)
    have hcd : c ≠ '-' := by
      refine char_ne_of_toNat_ne ?_
      simp [isDigitChar] at hd
      have h45 : ('-' : Char).toNat = 45 := rfl
      omega
    rw [hcs]
    simp only [List.cons_append, parseNum, if_neg hcd]
    rw [← List.cons_append, ← hcs, parseNatTok_print h]
    have hv : ((n.toNat : Nat) : Int) = n := by omega
    simp [hv]

theorem parseStrBody_escape :
    ∀ cs rest, parseStrBody (escapeChars cs ++ '"' :: rest) = some (cs, rest) := by
  intro cs
  induction cs with
  | nil =>
    intro rest
    show parseStrBody ('"' :: rest) = some ([], rest)
    unfold parseStrBody
    rw [if_neg (by decide), if_pos rfl]
  | cons c t ih =>
    intro rest
    by_cases hb : c = '\\'
    · subst hb
      show parseStrBody ('\\' :: '\\' :: (escapeChars t ++ '"' :: rest)) =
        some ('\\' :: t, rest)
      unfold parseStrBody
      rw [if_pos rfl]
      simp [ih]
    · by_cases hq : c = '"'
      · subst hq
        show parseStrBody ('\\' :: '"' :: (escapeChars t ++ '"' :: rest)) =
          some ('"' :: t, rest)
        unfold parseStrBody
        rw [if_pos rfl]
        simp [ih]
      · have hesc : escapeChars (c :: t) = c :: escapeChars t := by
          simp [escapeChars, hq, hb]
        rw [hesc, List.cons_append]
        unfold parseStrBody
        rw [if_neg hb, if_neg hq]
        simp [ih]

/-- Characters that can begin a serialized value: they are not whitespace
and differ from every delimiter the parser dispatches on. -/
def goodHead (c : Char) : Prop :=
  c.toNat = 110 ∨ c.toNat = 116 ∨ c.toNat = 102 ∨ c.toNat = 34 ∨
    c.toNat = 91 ∨ c.toNat = 123 ∨ c.toNat = 45 ∨ (48 ≤ c.toNat ∧ c.toNat ≤ 57)

theorem goodHead_not_ws {c : Char} (h : goodHead c) : isWsChar c = false := by
  simp only [isWsChar, Bool.or_eq_false_iff, decide_eq_false_iff_not]
  unfold goodHead at h
  omega

theorem goodHead_ne_rbracket {c : Char} (h : goodHead c) : c ≠ ']' := by
  refine char_ne_of_toNat_ne ?_
  have hv : (']' : Char).toNat = 93 := rfl
  unfold goodHead at h
  omega

theorem goodHead_ne_rbrace {c : Char} (h : goodHead c) : c ≠ '\x7d' := by
  refine char_ne_of_toNat_ne ?_
  have hv : ('\x7d' : Char).toNat = 125 := rfl
  unfold goodHead at h
  omega

theorem skipWs_cons_not_ws {c : Char} {t : List Char} (h : isWsChar c = false) :
    skipWs (c :: t) = c :: t := by
  simp [skipWs, List.dropWhile, h]

theorem skipWs_cons_ws {c : Char} {t : List Char} (h : isWsChar c = true) :
    skipWs (c :: t) = skipWs t := by
  simp [skipWs, List.dropWhile, h]

theorem skipWs_idem (cs : List Char) : skipWs (skipWs cs) = skipWs cs := by
  induction cs with
  | nil => rfl
  | cons c t ih =>
    by_cases h : isWsChar c = true
    · rw [skipWs_cons_ws h]; exact ih
    · rw [skipWs_cons_not_ws (by simpa using h), skipWs_cons_not_ws (by simpa using h)]

theorem parseVal_skipWs (fuel : Nat) (cs : List Char) :
    parseVal fuel (skipWs cs) = parseVal fuel cs := by
  match fuel with
  | 0 => rfl
  | f + 1 => simp only [parseVal, skipWs_idem]

theorem parseElems_skipWs (fuel : Nat) (cs : List Char) :
    parseElems fuel (skipWs cs) = parseElems fuel cs := by
  match fuel with
  | 0 => rfl
  | f + 1 => simp only [parseElems, parseVal_skipWs]

theorem parseMembers_skipWs (fuel : Nat) (cs : List Char) :
    parseMembers fuel (skipWs cs) = parseMembers fuel cs := by
  match fuel with
  | 0 => rfl
  | f + 1 => simp only [parseMembers, skipWs_idem]

theorem headNotDigit_cons {c : Char} {t : List Char} (h : isDigitChar c = false) :
    headNotDigit (c :: t) := h

theorem parseListTail_cons (g : Nat) {d : Char} (r₂ : List Char)
    (hws : isWsChar d = false) :
    parseListTail (g + 1) (d :: r₂) =
      if d = ']' then some (PyVal.list [], r₂)
      else (parseElems g (d :: r₂)).map (fun p => (PyVal.list p.1, p.2)) := by
  unfold parseListTail
  rw [skipWs_cons_not_ws hws]

theorem parseDictTail_cons (g : Nat) {d : Char} (r₂ : List Char)
    (hws : isWsChar d = false) :
    parseDictTail (g + 1) (d :: r₂) =
      if d = '\x7d' then some (PyVal.dict [], r₂)
      else (parseMembers g (d :: r₂)).map (fun p => (PyVal.dict p.1, p.2)) := by
  unfold parseDictTail
  rw [skipWs_cons_not_ws hws]

theorem parseElemsSep_cons (g : Nat) (v : PyVal) {d : Char} (r₂ : List Char)
    (hws : isWsChar d = false) :
    parseElemsSep (g + 1) v (d :: r₂) =
      if d = ',' then (parseElems g r₂).map (fun p => (v :: p.1, p.2))
      else if d = ']' then some ([v], r₂)
      else none := by
  unfold parseElemsSep
  rw [skipWs_cons_not_ws hws]

theorem parseMembers_cons (g : Nat) {c : Char} (r : List Char)
    (hws : isWsChar c = false) :
    parseMembers (g + 1) (c :: r) =
      if c = '"' then (parseStrBody r).bind (fun q => parseMemberColon g q.1 q.2)
      else none := by
  unfold parseMembers
  rw [skipWs_cons_not_ws hws]

theorem parseMemberColon_cons (g : Nat) (kcs : List Char) {d : Char} (r₂ : List Char)
    (hws : isWsChar d = false) :
    parseMemberColon (g + 1) kcs (d :: r₂) =
      if d = ':' then (parseVal g r₂).bind (fun q => parseMemberSep g kcs q.1 q.2)
      else none := by
  unfold parseMemberColon
  rw [skipWs_cons_not_ws hws]

theorem parseMemberSep_cons (g : Nat) (kcs : List Char) (v : PyVal) {e : Char}
    (r₄ : List Char) (hws : isWsChar e = false) :
    parseMemberSep (g + 1) kcs v (e :: r₄) =
      if e = ',' then (parseMembers g r₄).map (fun p => ((⟨kcs⟩, v) :: p.1, p.2))
      else if e = '\x7d' then some ([(⟨kcs⟩, v)], r₄)
      else none := by
  unfold parseMemberSep
  rw [skipWs_cons_not_ws hws]

mutual

/-- Structural size of a value, bounding the parsing fuel it needs. -/
def sizeP : PyVal → Nat
  | .null => 1
  | .bool _ => 1
  | .int _ => 1
  | .str _ => 1
  | .datetime _ => 1
  | .list xs => 4 + sizeL xs
  | .dict kvs => 4 + sizeM kvs

/-- Combined size of array elements. -/
def sizeL : List PyVal → Nat
  | [] => 0
  | x :: xs => 4 + sizeP x + sizeL xs

/-- Combined size of object members. -/
def sizeM : List (String × PyVal) → Nat
  | [] => 0
  | (_, v) :: kvs => 6 + sizeP v + sizeM kvs

end

theorem sizeP_pos (v : PyVal) : 1 ≤ sizeP v := by
  cases v <;> simp [sizeP] <;> omega

theorem dumpVal_head :
    ∀ v cs, dumpVal v = some cs → ∃ c t, cs = c :: t ∧ goodHead c := by
  intro v cs hd
  match v with
  | .null =>
    refine ⟨'n', _, by simpa [dumpVal] using hd.symm, ?_⟩
    unfold goodHead; left; rfl
  | .bool true =>
    refine ⟨'t', _, by simpa [dumpVal] using hd.symm, ?_⟩
    unfold goodHead; right; left; rfl
  | .bool false =>
    refine ⟨'f', _, by simpa [dumpVal] using hd.symm, ?_⟩
    unfold goodHead; right; right; left; rfl
  | .str s =>
    refine ⟨'"', _, by simpa [dumpVal] using hd.symm, ?_⟩
    unfold goodHead; right; right; right; left; rfl
  | .int n =>
    by_cases hn : n < 0
    · refine ⟨'-', printNat n.natAbs, ?_, ?_⟩
      · have : cs = printInt n := by simpa [dumpVal] using hd.symm
        rw [this]; simp [printInt, hn]
      · unfold goodHead
        have : ('-' : Char).toNat = 45 := rfl
        omega
    · have hcs : cs = printNat n.toNat := by
        have : cs = printInt n := by simpa [dumpVal] using hd.symm
        rw [this]; simp [printInt, hn]
      obtain ⟨c, t, hct⟩ : ∃ c t, printNat n.toNat = c :: t := by
        match hp : printNat n.toNat with
        | [] => exact absurd hp printNat_ne_nil
        | c :: t => exact ⟨c, t, rfl⟩
      refine ⟨c, t, by rw [hcs, hct], ?_⟩
      have := printNat_all_digits (n := n.toNat) c (by rw [hct]; simp)
      unfold goodHead
      simp [isDigitChar] at this
      omega
  | .list xs =>
    simp only [dumpVal, Option.map_eq_some'] at hd
    obtain ⟨ecs, _, rfl⟩ := hd
    refine ⟨'[', _, rfl, ?_⟩
    unfold goodHead
    have : ('[' : Char).toNat = 91 := rfl
    omega
  | .dict kvs =>
    simp only [dumpVal, Option.map_eq_some'] at hd
    obtain ⟨ecs, _, rfl⟩ := hd
    refine ⟨'\x7b', _, rfl, ?_⟩
    unfold goodHead
    have : ('\x7b' : Char).toNat = 123 := rfl
    omega

theorem dumpElems_head :
    ∀ xs cs, xs ≠ [] → dumpElems xs = some cs → ∃ c t, cs = c :: t ∧ goodHead c := by
  intro xs cs hne hd
  match xs with
  | [x] => exact dumpVal_head x cs (by simpa [dumpElems] using hd)
  | x :: y :: t =>
    rcases hx : dumpVal x with _ | cx
    · simp [dumpElems, hx] at hd
    · rcases hys : dumpElems (y :: t) with _ | cys
      · simp [dumpElems, hx, hys] at hd
      · have hcs : cs = cx ++ ',' :: ' ' :: cys := by
          simp [dumpElems, hx, hys] at hd
          exact hd.symm
        obtain ⟨c, tx, rfl, hg⟩ := dumpVal_head x cx hx
        exact ⟨c, tx ++ ',' :: ' ' :: cys, by rw [hcs]; simp, hg⟩

theorem dumpMembers_head :
    ∀ kvs cs, kvs ≠ [] → dumpMembers kvs = some cs →
      ∃ t, cs = '"' :: t := by
  intro kvs cs hne hd
  match kvs with
  | [(k, v)] =>
    rcases hv : dumpVal v with _ | cv
    · simp [dumpMembers, hv] at hd
    · have hcs : cs = dumpKey k ++ cv := by
        simp [dumpMembers, hv] at hd
        exact hd.symm
      exact ⟨escapeChars k.data ++ '"' :: ':' :: ' ' :: cv, by rw [hcs]; simp [dumpKey]⟩
  | (k, v) :: m :: t =>
    rcases hv : dumpVal v with _ | cv
    · simp [dumpMembers, hv] at hd
    · rcases hms : dumpMembers (m :: t) with _ | cms
      · simp [dumpMembers, hv, hms] at hd
      · have hcs : cs = dumpKey k ++ (cv ++ ',' :: ' ' :: cms) := by
          simp [dumpMembers, hv, hms] at hd
          simpa [List.append_assoc] using hd.symm
        exact ⟨escapeChars k.data ++ '"' :: ':' :: ' ' :: (cv ++ ',' :: ' ' :: cms),
          by rw [hcs]; simp [dumpKey]⟩

theorem parseVal_digit {c : Char} {r : List Char} (hc : isDigitChar c = true) (f : Nat) :
    parseVal (f + 1) (c :: r) = parseNumVal (c :: r) := by
  have hcn : 48 ≤ c.toNat ∧ c.toNat ≤ 57 := by simpa [isDigitChar] using hc
  have hws : isWsChar c = false := by
    simp only [isWsChar, Bool.or_eq_false_iff, decide_eq_false_iff_not]
    omega
  have hn : c ≠ 'n' := char_ne_of_toNat_ne (by have : ('n' : Char).toNat = 110 := rfl; omega)
  have ht : c ≠ 't' := char_ne_of_toNat_ne (by have : ('t' : Char).toNat = 116 := rfl; omega)
  have hf : c ≠ 'f' := char_ne_of_toNat_ne (by have : ('f' : Char).toNat = 102 := rfl; omega)
  have hq : c ≠ '"' := char_ne_of_toNat_ne (by have : ('"' : Char).toNat = 34 := rfl; omega)
  have hl : c ≠ '[' := char_ne_of_toNat_ne (by have : ('[' : Char).toNat = 91 := rfl; omega)
  have hb : c ≠ '\x7b' :=
    char_ne_of_toNat_ne (by have : ('\x7b' : Char).toNat = 123 := rfl; omega)
  unfold parseVal
  rw [skipWs_cons_not_ws hws]
  simp [hn, ht, hf, hq, hl, hb, hc]
theorem parse_dump :
    ∀ n : Nat,
      (∀ v cs rest, sizeP v < n → dumpVal v = some cs → headNotDigit rest →
        parseVal n (cs ++ rest) = some (v, rest)) ∧
      (∀ xs cs rest, xs ≠ [] → sizeL xs < n → dumpElems xs = some cs →
        parseElems n (cs ++ ']' :: rest) = some (xs, rest)) ∧
      (∀ kvs cs rest, kvs ≠ [] → sizeM kvs < n → dumpMembers kvs = some cs →
        parseMembers n (cs ++ '\x7d' :: rest) = some (kvs, rest)) := by
  intro n
  induction n using Nat.strong_induction_on with
  | _ n ih =>
  refine ⟨?_, ?_, ?_⟩
  · -- parseVal inverts dumpVal
    intro v cs rest hsz hd hrest
    obtain ⟨f, rfl⟩ : ∃ f, n = f + 1 := ⟨n - 1, by have := sizeP_pos v; omega⟩
    match v with
    | .null =>
      have hcs : cs = "null".data := by simp [dumpVal] at hd; exact hd.symm
      subst hcs; rfl
    | .bool true =>
      have hcs : cs = "true".data := by simp [dumpVal] at hd; exact hd.symm
      subst hcs; rfl
    | .bool false =>
      have hcs : cs = "false".data := by simp [dumpVal] at hd; exact hd.symm
      subst hcs; rfl
    | .datetime t => simp [dumpVal] at hd
    | .int m =>
      have hcs : cs = printInt m := by simp [dumpVal] at hd; exact hd.symm
      subst hcs
      by_cases hm : m < 0
      · have hpi : printInt m = '-' :: printNat m.natAbs := by simp [printInt, hm]
        rw [hpi, List.cons_append]
        show parseNumVal ('-' :: (printNat m.natAbs ++ rest)) = some (.int m, rest)
        unfold parseNumVal
        rw [← List.cons_append, ← hpi, parseNum_print hrest]
        rfl
      · have hpi : printInt m = printNat m.toNat := by simp [printInt, hm]
        obtain ⟨c, t, hct⟩ : ∃ c t, printNat m.toNat = c :: t := by
          match hp : printNat m.toNat with
          | [] => exact absurd hp printNat_ne_nil
          | c :: t => exact ⟨c, t, rfl⟩
        have hc : isDigitChar c = true :=
          printNat_all_digits (n := m.toNat) c (by rw [hct]; simp)
        rw [hpi, hct, List.cons_append, parseVal_digit hc]
        unfold parseNumVal
        rw [← List.cons_append, ← hct, ← hpi, parseNum_print hrest]
        rfl
    | .str s =>
      have hcs : cs = '"' :: escapeChars s.data ++ ['"'] := by
        simp [dumpVal] at hd; exact hd.symm
      subst hcs
      have hre : ('"' :: escapeChars s.data ++ ['"']) ++ rest =
          '"' :: (escapeChars s.data ++ '"' :: rest) := by simp
      rw [hre]
      show (parseStrBody (escapeChars s.data ++ '"' :: rest)).map
        (fun p => (PyVal.str ⟨p.1⟩, p.2)) = some (.str s, rest)
      rw [parseStrBody_escape]
      rfl
    | .list xs =>
      match xs with
      | [] =>
        have hcs : cs = ['[', ']'] := by simp [dumpVal, dumpElems] at hd; exact hd.symm
        subst hcs
        obtain ⟨g, rfl⟩ : ∃ g, f = g + 1 :=
          ⟨f - 1, by simp [sizeP, sizeL] at hsz; omega⟩
        rfl
      | x :: xs₂ =>
        rcases hecs : dumpElems (x :: xs₂) with _ | ecs
        · simp [dumpVal, hecs] at hd
        · have hcs : cs = '[' :: ecs ++ [']'] := by
            simp [dumpVal, hecs] at hd; exact hd.symm
          subst hcs
          obtain ⟨e, t, rfl, hg⟩ := dumpElems_head (x :: xs₂) ecs (by simp) hecs
          have hre : ('[' :: (e :: t) ++ [']']) ++ rest =
              '[' :: (e :: (t ++ ']' :: rest)) := by simp
          rw [hre]
          obtain ⟨g, rfl⟩ : ∃ g, f = g + 1 :=
            ⟨f - 1, by simp [sizeP, sizeL] at hsz; omega⟩
          show parseListTail (g + 1) (e :: (t ++ ']' :: rest)) =
            some (.list (x :: xs₂), rest)
          rw [parseListTail_cons g _ (goodHead_not_ws hg)]
          rw [if_neg (goodHead_ne_rbracket hg)]
          rw [← List.cons_append]
          rw [(ih g (by omega)).2.1 (x :: xs₂) (e :: t) rest (by simp)
            (by simp only [sizeP] at hsz; omega) hecs]
          rfl
    | .dict kvs =>
      match kvs with
      | [] =>
        have hcs : cs = ['\x7b', '\x7d'] := by
          simp [dumpVal, dumpMembers] at hd; exact hd.symm
        subst hcs
        obtain ⟨g, rfl⟩ : ∃ g, f = g + 1 :=
          ⟨f - 1, by simp [sizeP, sizeM] at hsz; omega⟩
        rfl
      | kv :: kvs₂ =>
        rcases hmcs : dumpMembers (kv :: kvs₂) with _ | mcs
        · simp [dumpVal, hmcs] at hd
        · have hcs : cs = '\x7b' :: mcs ++ ['\x7d'] := by
            simp [dumpVal, hmcs] at hd; exact hd.symm
          subst hcs
          obtain ⟨t, rfl⟩ := dumpMembers_head (kv :: kvs₂) mcs (by simp) hmcs
          have hre : ('\x7b' :: ('"' :: t) ++ ['\x7d']) ++ rest =
              '\x7b' :: ('"' :: (t ++ '\x7d' :: rest)) := by simp
          rw [hre]
          obtain ⟨g, rfl⟩ : ∃ g, f = g + 1 :=
            ⟨f - 1, by simp [sizeP, sizeM] at hsz; omega⟩
          show parseDictTail (g + 1) ('"' :: (t ++ '\x7d' :: rest)) =
            some (.dict (kv :: kvs₂), rest)
          rw [parseDictTail_cons g _ (by decide)]
          rw [if_neg (by decide : ¬('"' : Char) = '\x7d')]
          rw [← List.cons_append]
          rw [(ih g (by omega)).2.2 (kv :: kvs₂) ('"' :: t) rest (by simp)
            (by simp only [sizeP] at hsz; omega) hmcs]
          rfl
  · -- parseElems inverts dumpElems
    intro xs cs rest hne hsz hd
    match xs with
    | [x] =>
      have hdx : dumpVal x = some cs := by simpa [dumpElems] using hd
      obtain ⟨f, rfl⟩ : ∃ f, n = f + 1 := ⟨n - 1, by simp [sizeL] at hsz; omega⟩
      unfold parseElems
      rw [(ih f (by omega)).1 x cs (']' :: rest)
        (by simp [sizeL] at hsz; omega) hdx (headNotDigit_cons (by decide))]
      obtain ⟨g, rfl⟩ : ∃ g, f = g + 1 := ⟨f - 1, by simp [sizeL] at hsz; omega⟩
      rfl
    | x :: y :: t =>
      rcases hx : dumpVal x with _ | cx
      · simp [dumpElems, hx] at hd
      · rcases hys : dumpElems (y :: t) with _ | cys
        · simp [dumpElems, hx, hys] at hd
        · have hcs : cs = cx ++ ',' :: ' ' :: cys := by
            simp [dumpElems, hx, hys] at hd; exact hd.symm
          subst hcs
          obtain ⟨f, rfl⟩ : ∃ f, n = f + 1 := ⟨n - 1, by simp [sizeL] at hsz; omega⟩
          have hre : (cx ++ ',' :: ' ' :: cys) ++ ']' :: rest =
              cx ++ (',' :: ' ' :: (cys ++ ']' :: rest)) := by simp
          rw [hre]
          unfold parseElems
          rw [(ih f (by omega)).1 x cx (',' :: ' ' :: (cys ++ ']' :: rest))
            (by simp [sizeL] at hsz; omega) hx (headNotDigit_cons (by decide))]
          obtain ⟨g, rfl⟩ : ∃ g, f = g + 1 := ⟨f - 1, by simp [sizeL] at hsz; omega⟩
          show parseElemsSep (g + 1) x (',' :: ' ' :: (cys ++ ']' :: rest)) =
            some (x :: y :: t, rest)
          rw [parseElemsSep_cons g x _ (by decide)]
          rw [if_pos rfl]
          rw [← parseElems_skipWs g (' ' :: (cys ++ ']' :: rest))]
          rw [skipWs_cons_ws (by decide)]
          rw [parseElems_skipWs g (cys ++ ']' :: rest)]
          rw [(ih g (by omega)).2.1 (y :: t) cys rest (by simp)
            (by simp only [sizeL] at hsz ⊢; omega) hys]
          rfl
  · -- parseMembers inverts dumpMembers
    intro kvs cs rest hne hsz hd
    match kvs with
    | [(k, v)] =>
      rcases hv : dumpVal v with _ | cv
      · simp [dumpMembers, hv] at hd
      · have hcs : cs = dumpKey k ++ cv := by
          simp [dumpMembers, hv] at hd; exact hd.symm
        subst hcs
        obtain ⟨f, rfl⟩ : ∃ f, n = f + 1 := ⟨n - 1, by simp [sizeM] at hsz; omega⟩
        have hre : (dumpKey k ++ cv) ++ '\x7d' :: rest =
            '"' :: (escapeChars k.data ++ '"' :: (':' :: ' ' :: (cv ++ '\x7d' :: rest))) := by
          simp [dumpKey]
        rw [hre]
        rw [parseMembers_cons f _ (by decide)]
        rw [if_pos rfl]
        rw [parseStrBody_escape]
        obtain ⟨g, rfl⟩ : ∃ g, f = g + 1 := ⟨f - 1, by simp [sizeM] at hsz; omega⟩
        show parseMemberColon (g + 1) k.data (':' :: ' ' :: (cv ++ '\x7d' :: rest)) =
          some ([(k, v)], rest)
        rw [parseMemberColon_cons g _ _ (by decide)]
        rw [if_pos rfl]
        rw [← parseVal_skipWs g (' ' :: (cv ++ '\x7d' :: rest))]
        rw [skipWs_cons_ws (by decide)]
        rw [parseVal_skipWs g (cv ++ '\x7d' :: rest)]
        rw [(ih g (by omega)).1 v cv ('\x7d' :: rest)
          (by simp [sizeM] at hsz; omega) hv (headNotDigit_cons (by decide))]
        obtain ⟨i, rfl⟩ : ∃ i, g = i + 1 := ⟨g - 1, by simp [sizeM] at hsz; omega⟩
        rfl
    | (k, v) :: m :: t =>
      rcases hv : dumpVal v with _ | cv
      · simp [dumpMembers, hv] at hd
      · rcases hms : dumpMembers (m :: t) with _ | cms
        · simp [dumpMembers, hv, hms] at hd
        · have hcs : cs = dumpKey k ++ (cv ++ ',' :: ' ' :: cms) := by
            simp [dumpMembers, hv, hms] at hd
            simpa [List.append_assoc] using hd.symm
          subst hcs
          obtain ⟨f, rfl⟩ : ∃ f, n = f + 1 := ⟨n - 1, by simp [sizeM] at hsz; omega⟩
          have hre : (dumpKey k ++ (cv ++ ',' :: ' ' :: cms)) ++ '\x7d' :: rest =
              '"' :: (escapeChars k.data ++ '"' ::
                (':' :: ' ' :: (cv ++ ',' :: ' ' :: (cms ++ '\x7d' :: rest)))) := by
            simp [dumpKey]
          rw [hre]
          rw [parseMembers_cons f _ (by decide)]
          rw [if_pos rfl]
          rw [parseStrBody_escape]
          obtain ⟨g, rfl⟩ : ∃ g, f = g + 1 := ⟨f - 1, by simp [sizeM] at hsz; omega⟩
          show parseMemberColon (g + 1) k.data
            (':' :: ' ' :: (cv ++ ',' :: ' ' :: (cms ++ '\x7d' :: rest))) =
            some ((k, v) :: m :: t, rest)
          rw [parseMemberColon_cons g _ _ (by decide)]
          rw [if_pos rfl]
          rw [← parseVal_skipWs g (' ' :: (cv ++ ',' :: ' ' :: (cms ++ '\x7d' :: rest)))]
          rw [skipWs_cons_ws (by decide)]
          rw [parseVal_skipWs g (cv ++ ',' :: ' ' :: (cms ++ '\x7d' :: rest))]
          rw [(ih g (by omega)).1 v cv (',' :: ' ' :: (cms ++ '\x7d' :: rest))
            (by simp [sizeM] at hsz; omega) hv (headNotDigit_cons (by decide))]
          obtain ⟨i, rfl⟩ : ∃ i, g = i + 1 := ⟨g - 1, by simp [sizeM] at hsz; omega⟩
          show parseMemberSep (i + 1) k.data v
            (',' :: ' ' :: (cms ++ '\x7d' :: rest)) = some ((k, v) :: m :: t, rest)
          rw [parseMemberSep_cons i _ _ _ (by decide)]
          rw [if_pos rfl]
          rw [← parseMembers_skipWs i (' ' :: (cms ++ '\x7d' :: rest))]
          rw [skipWs_cons_ws (by decide)]
          rw [parseMembers_skipWs i (cms ++ '\x7d' :: rest)]
          rw [(ih i (by omega)).2.2 (m :: t) cms rest (by simp)
            (by simp only [sizeM] at hsz ⊢; omega) hms]
          rfl

theorem sizeP_le_dump :
    ∀ n : Nat,
      (∀ v cs, sizeP v ≤ n → dumpVal v = some cs → sizeP v ≤ 6 * cs.length) ∧
      (∀ xs cs, sizeL xs ≤ n → dumpElems xs = some cs →
        sizeL xs ≤ 6 * cs.length + 6) ∧
      (∀ kvs cs, sizeM kvs ≤ n → dumpMembers kvs = some cs →
        sizeM kvs ≤ 6 * cs.length + 6) := by
  intro n
  induction n using Nat.strong_induction_on with
  | _ n ih =>
  refine ⟨?_, ?_, ?_⟩
  · intro v cs hsz hd
    match v with
    | .null =>
      have hcs : cs = "null".data := by simp [dumpVal] at hd; exact hd.symm
      subst hcs; simp [sizeP]
    | .bool true =>
      have hcs : cs = "true".data := by simp [dumpVal] at hd; exact hd.symm
      subst hcs; simp [sizeP]
    | .bool false =>
      have hcs : cs = "false".data := by simp [dumpVal] at hd; exact hd.symm
      subst hcs; simp [sizeP]
    | .datetime t => simp [dumpVal] at hd
    | .int m =>
      have hcs : cs = printInt m := by simp [dumpVal] at hd; exact hd.symm
      subst hcs
      have hne : printInt m ≠ [] := by
        by_cases hm : m < 0 <;> simp [printInt, hm, printNat_ne_nil]
      have : 1 ≤ (printInt m).length := by
        cases hp : printInt m with
        | nil => exact absurd hp hne
        | cons c t => simp
      simp only [sizeP]; omega
    | .str s =>
      have hcs : cs = '"' :: escapeChars s.data ++ ['"'] := by
        simp [dumpVal] at hd; exact hd.symm
      subst hcs; simp [sizeP]; omega
    | .list xs =>
      rcases hecs : dumpElems xs with _ | ecs
      · simp [dumpVal, hecs] at hd
      · have hcs : cs = '[' :: ecs ++ [']'] := by
          simp [dumpVal, hecs] at hd; exact hd.symm
        subst hcs
        have hszl : sizeL xs ≤ n - 1 := by
          have := sizeP_pos (.list xs)
          simp only [sizeP] at hsz ⊢
          omega
        have hn1 : n - 1 < n := by
          have := sizeP_pos (.list xs)
          omega
        have h1 := (ih (n - 1) hn1).2.1 xs ecs hszl hecs
        simp only [sizeP, List.length_cons, List.length_append] at *
        omega
    | .dict kvs =>
      rcases hmcs : dumpMembers kvs with _ | mcs
      · simp [dumpVal, hmcs] at hd
      · have hcs : cs = '\x7b' :: mcs ++ ['\x7d'] := by
          simp [dumpVal, hmcs] at hd; exact hd.symm
        subst hcs
        have hszl : sizeM kvs ≤ n - 1 := by
          have := sizeP_pos (.dict kvs)
          simp only [sizeP] at hsz ⊢
          omega
        have hn1 : n - 1 < n := by
          have := sizeP_pos (.dict kvs)
          omega
        have h1 := (ih (n - 1) hn1).2.2 kvs mcs hszl hmcs
        simp only [sizeP, List.length_cons, List.length_append] at *
        omega
  · intro xs cs hsz hd
    match xs with
    | [] =>
      have hcs : cs = [] := by simp [dumpElems] at hd; exact hd
      subst hcs; simp [sizeL]
    | [x] =>
      have hdx : dumpVal x = some cs := by simpa [dumpElems] using hd
      have hx : sizeP x ≤ n - 1 ∧ n - 1 < n := by
        have := sizeP_pos x
        simp only [sizeL] at hsz
        omega
      have h1 := (ih (n - 1) hx.2).1 x cs hx.1 hdx
      simp only [sizeL]
      omega
    | x :: y :: t =>
      rcases hx : dumpVal x with _ | cx
      · simp [dumpElems, hx] at hd
      · rcases hys : dumpElems (y :: t) with _ | cys
        · simp [dumpElems, hx, hys] at hd
        · have hcs : cs = cx ++ ',' :: ' ' :: cys := by
            simp [dumpElems, hx, hys] at hd; exact hd.symm
          subst hcs
          have hb : sizeP x ≤ n - 1 ∧ sizeL (y :: t) ≤ n - 1 ∧ n - 1 < n := by
            have := sizeP_pos x
            have := sizeP_pos y
            simp only [sizeL] at hsz
            simp only [sizeL]
            omega
          have h1 := (ih (n - 1) hb.2.2).1 x cx hb.1 hx
          have h2 := (ih (n - 1) hb.2.2).2.1 (y :: t) cys hb.2.1 hys
          simp only [sizeL, List.length_append, List.length_cons] at *
          omega
  · intro kvs cs hsz hd
    match kvs with
    | [] =>
      have hcs : cs = [] := by simp [dumpMembers] at hd; exact hd
      subst hcs; simp [sizeM]
    | [(k, v)] =>
      rcases hv : dumpVal v with _ | cv
      · simp [dumpMembers, hv] at hd
      · have hcs : cs = dumpKey k ++ cv := by
          simp [dumpMembers, hv] at hd; exact hd.symm
        subst hcs
        have hb : sizeP v ≤ n - 1 ∧ n - 1 < n := by
          have := sizeP_pos v
          simp only [sizeM] at hsz
          omega
        have h1 := (ih (n - 1) hb.2).1 v cv hb.1 hv
        simp only [sizeM, List.length_append, dumpKey, List.length_cons] at *
        omega
    | (k, v) :: m :: t =>
      rcases hv : dumpVal v with _ | cv
      · simp [dumpMembers, hv] at hd
      · rcases hms : dumpMembers (m :: t) with _ | cms
        · simp [dumpMembers, hv, hms] at hd
        · have hcs : cs = dumpKey k ++ (cv ++ ',' :: ' ' :: cms) := by
            simp [dumpMembers, hv, hms] at hd
            simpa [List.append_assoc] using hd.symm
          subst hcs
          have hb : sizeP v ≤ n - 1 ∧ sizeM (m :: t) ≤ n - 1 ∧ n - 1 < n := by
            have := sizeP_pos v
            have := sizeP_pos m.2
            simp only [sizeM] at hsz
            simp only [sizeM]
            omega
          have h1 := (ih (n - 1) hb.2.2).1 v cv hb.1 hv
          have h2 := (ih (n - 1) hb.2.2).2.2 (m :: t) cms hb.2.1 hms
          simp only [sizeM, List.length_append, dumpKey, List.length_cons] at *
          omega

/-- Round trip: parsing a serialized value recovers it exactly.  This is
the identity `json.loads(json.dumps(v)) == v` for every serializable `v`. -/
theorem loads_dumps {v : PyVal} {s : String} (h : dumps v = some s) :
    loads s = some v := by
  rcases hd : dumpVal v with _ | cs
  · simp [dumps, hd] at h
  · have hs : s = ⟨cs⟩ := by simp [dumps, hd] at h; exact h.symm
    subst hs
    have hdata : (⟨cs⟩ : String).data = cs := rfl
    have hsz : sizeP v < 6 * cs.length + 6 := by
      have := (sizeP_le_dump (sizeP v)).1 v cs le_rfl hd
      omega
    have h1 := (parse_dump (6 * cs.length + 6)).1 v cs [] hsz hd trivial
    rw [List.append_nil] at h1
    unfold loads loadsChars
    rw [hdata, h1]
    rfl

/-! ### Python-level helpers: truthiness, `str.strip`, `shlex.split` -/

/-- Python truthiness of a value (`if value:`). -/
def pyTruthy : PyVal → Bool
  | .null => false
  | .bool b => b
  | .int n => !(n == 0)
  | .str s => !(s == "")
  | .list xs => !xs.isEmpty
  | .dict kvs => !kvs.isEmpty
  | .datetime _ => true

/-- Model of Python `str.strip()`: drop whitespace from both ends. -/
def pyStrip (s : String) : String :=
  ⟨((s.data.dropWhile isWsChar).reverse.dropWhile isWsChar).reverse⟩

/-- Lexer mode of `shlex` in POSIX mode: outside quotes, inside single
quotes, inside double quotes. -/
inductive QMode where
  | norm
  | single
  | double

/-- The single-quote character. -/
def squote : Char := Char.ofNat 39

/-- Append the pending token, if one is open, to the accumulator. -/
def flushTok : Option (List Char) → List String → List String
  | none, acc => acc
  | some t, acc => acc ++ [⟨t⟩]

/-- Model of `shlex.split` (POSIX mode, whitespace splitting): running
state is the remaining input, the quoting mode, the token under
construction, and the tokens already produced.  `none` models the
`ValueError` raised on an unclosed quote or a trailing escape. -/
def shlexCore : List Char → QMode → Option (List Char) → List String →
    Option (List String)
  | [], .norm, tok, acc => some (flushTok tok acc)
  | [], _, _, _ => none
  | c :: cs, .norm, tok, acc =>
    if isWsChar c then shlexCore cs .norm none (flushTok tok acc)
    else if c = squote then shlexCore cs .single (some (tok.getD [])) acc
    else if c = '"' then shlexCore cs .double (some (tok.getD [])) acc
    else if c = '\\' then
      match cs with
      | [] => none
      | d :: cs₂ => shlexCore cs₂ .norm (some (tok.getD [] ++ [d])) acc
    else shlexCore cs .norm (some (tok.getD [] ++ [c])) acc
  | c :: cs, .single, tok, acc =>
    if c = squote then shlexCore cs .norm tok acc
    else shlexCore cs .single (some (tok.getD [] ++ [c])) acc
  | c :: cs, .double, tok, acc =>
    if c = '"' then shlexCore cs .norm tok acc
    else if c = '\\' then
      match cs with
      | [] => none
      | d :: cs₂ =>
        if d = '"' || d = '\\' then shlexCore cs₂ .double (some (tok.getD [] ++ [d])) acc
        else shlexCore cs₂ .double (some (tok.getD [] ++ ['\\', d])) acc
    else shlexCore cs .double (some (tok.getD [] ++ [c])) acc

/-- Model of `shlex.split`. -/
def shlexSplit (s : String) : Option (List String) := shlexCore s.data .norm none []

/-- The process invocation handed to `subprocess.run(args, ...)`: an
explicit argument vector, and whether a shell interprets it
(`subprocess.run` is called without `shell=True`, so never). -/
structure SpawnCall where
  argv : List String
  usedShell : Bool

/-- The spawn call `execute_command` makes for a command string: the
string is tokenized by `shlex.split` and the token list is passed as the
argument vector, with no shell. -/
def spawnOf (command : String) : Option SpawnCall :=
  (shlexSplit command).map (fun a => ⟨a, false⟩)

/-! ### The command executor (`execute_command` in `services.py` and
`routes.py`) -/

/-- Errors surfaced by the services; each maps to one HTTP status
(`notFound` to 404, the others to 500). -/
inductive Err where
  | notFound
  | commandFailed (stderr : String)
  | internal

/-- Outcome of one external process run, supplied as an oracle input. -/
structure ExecOut where
  exitOk : Bool
  stdout : String
  stderr : String

/-- How `execute_command` interprets captured stdout: parsed JSON when it
parses, else the raw text wrapped in a one-field dict. -/
def parseOutput (stdout : String) : PyVal :=
  match loads stdout with
  | some j => j
  | none => .dict [("stdout", .str stdout)]

/-- Model of `execute_command`: split the command string with
`shlex.split` (a split failure raises, caught as a 500), run the argv, and
on non-zero exit raise carrying stderr; on success parse stdout. -/
def executeCommand (command : String) (out : ExecOut) : Except Err PyVal :=
  match shlexSplit command with
  | none => .error .internal
  | some _ =>
    if out.exitOk then .ok (parseOutput out.stdout)
    else .error (.commandFailed out.stderr)

/-! ### Analysis request parameters and the k8sgpt command builder
(`run_k8sgpt_analysis`, `services.py` lines 59–110) -/

/-- Truthiness of an optional string parameter (`parameters.get(k)`). -/
def optStrTruthy : Option String → Bool
  | none => false
  | some s => !(s == "")

/-- Truthiness of an optional list parameter. -/
def optListTruthy : Option (List String) → Bool
  | none => false
  | some l => !l.isEmpty

/-- The `AnalysisRequest` schema fields; `nmspace` embeds the `namespace`
field (a reserved word here). -/
structure AnalysisParams where
  anonymize : Bool
  backend : Option String
  custom_analysis : Bool
  custom_headers : Option (List String)
  explain : Bool
  filter_analyzers : Option (List String)
  interactive : Bool
  language : String
  max_concurrency : Nat
  nmspace : Option String
  no_cache : Bool
  output_format : String
  selector : Option String
  with_doc : Bool

/-- The schema defaults of `AnalysisRequest`. -/
def defaultParams : AnalysisParams :=
  ⟨false, none, false, none, false, none, false, "english", 10, none, false,
    "text", none, false⟩

/-- The command string built by `run_k8sgpt_analysis`: the Python code
concatenates every parameter value into one string with f-strings. -/
def buildK8sgptCommand (p : AnalysisParams) (kubeconfigPath : String) : String :=
  let c := "k8sgpt analyze"
  let c := if optStrTruthy p.backend then c ++ " --backend " ++ p.backend.getD "" else c
  let c := if p.custom_analysis then c ++ " --custom-analysis" else c
  let c := if optListTruthy p.custom_headers then
    (p.custom_headers.getD []).foldl (fun acc h => acc ++ " --custom-headers " ++ h) c
    else c
  let c := if p.explain then c ++ " --explain" else c
  let c := if optListTruthy p.filter_analyzers then
    (p.filter_analyzers.getD []).foldl (fun acc fl => acc ++ " --filter " ++ fl) c
    else c
  let c := if p.interactive then c ++ " --interactive" else c
  let c := if !(p.language == "") && !(p.language == "english") then
    c ++ " --language " ++ p.language else c
  let c := if !(p.max_concurrency == 0) && !(p.max_concurrency == 10) then
    c ++ " --max-concurrency " ++ (⟨printNat p.max_concurrency⟩ : String) else c
  let c := if optStrTruthy p.nmspace then c ++ " --namespace " ++ p.nmspace.getD "" else c
  let c := if p.no_cache then c ++ " --no-cache" else c
  let c := c ++ " --output json"
  let c := if optStrTruthy p.selector then c ++ " --selector " ++ p.selector.getD "" else c
  let c := if p.with_doc then c ++ " --with-doc" else c
  c ++ " --kubeconfig " ++ kubeconfigPath

/-- A `None`-able string as `dict()` renders it. -/
def optStrPy : Option String → PyVal
  | none => .null
  | some s => .str s

/-- A `None`-able string list as `dict()` renders it. -/
def optListPy : Option (List String) → PyVal
  | none => .null
  | some l => .list (l.map .str)

/-- The `parameters` dict (`analysis_request.dict()`), in field order. -/
def paramsPy (p : AnalysisParams) : PyVal :=
  .dict [("anonymize", .bool p.anonymize),
    ("backend", optStrPy p.backend),
    ("custom_analysis", .bool p.custom_analysis),
    ("custom_headers", optListPy p.custom_headers),
    ("explain", .bool p.explain),
    ("filter_analyzers", optListPy p.filter_analyzers),
    ("interactive", .bool p.interactive),
    ("language", .str p.language),
    ("max_concurrency", .int p.max_concurrency),
    ("namespace", optStrPy p.nmspace),
    ("no_cache", .bool p.no_cache),
    ("output_format", .str p.output_format),
    ("selector", optStrPy p.selector),
    ("with_doc", .bool p.with_doc)]

/-! ### Data model rows and the k8sgpt service state -/

/-- One `AnalysisResult` row (timestamps as abstract ticks). -/
structure AnalysisRow where
  user_id : Nat
  cluster_name : String
  nmspace : Option String
  result_id : String
  result_json : String
  created_at : Nat
  parameters : String

/-- One `AIBackendConfig` row. -/
structure BackendRow where
  user_id : Nat
  backend_name : String
  is_default : Bool
  config_json : String
  created_at : Nat
  updated_at : Nat

/-- One Redis entry: `setex` stores a string value with an absolute
expiry deadline. -/
structure CacheEntry where
  key : String
  value : String
  deadline : Nat

/-- State threaded through the k8sgpt service: the two durable tables,
the cache contents, whether the Redis connection is up, and the clock. -/
structure AState where
  adb : List AnalysisRow
  bdb : List BackendRow
  cache : List CacheEntry
  redisUp : Bool
  now : Nat

/-- The per-user cache key, `user:{id}:{key}` (`get_cache_key`). -/
def cacheKey (uid : Nat) (key : String) : String :=
  "user:" ++ (⟨printNat uid⟩ : String) ++ ":" ++ key

/-- First entry with the given key. -/
def cacheLookup : List CacheEntry → String → Option CacheEntry
  | [], _ => none
  | e :: es, k => if e.key == k then some e else cacheLookup es k

/-- `setex` semantics: replace any entry under the same key. -/
def cacheInsert (es : List CacheEntry) (e : CacheEntry) : List CacheEntry :=
  e :: es.filter (fun x => !(x.key == e.key))

/-- Model of `cache_get`: `None` when Redis is down, the key is absent or
expired, the stored bytes are empty, or `json.loads` raises (the handler
absorbs every exception and returns `None`). -/
def cache_get (st : AState) (uid : Nat) (key : String) : Option PyVal :=
  if st.redisUp then
    match cacheLookup st.cache (cacheKey uid key) with
    | some e =>
      if st.now < e.deadline then
        if e.value == "" then none
        else
          match loads e.value with
          | some v => some v
          | none => none
      else none
    | none => none
  else none

/-- Model of `cache_set`: serialize the value and `setex` it with the
given expiry; a `json.dumps` failure (for example a `datetime` inside the
value) is caught and leaves the cache unchanged. -/
def cache_set (st : AState) (uid : Nat) (key : String) (value : PyVal)
    (expiry : Nat) : AState :=
  if st.redisUp then
    match dumps value with
    | some s =>
      { st with cache := cacheInsert st.cache ⟨cacheKey uid key, s, st.now + expiry⟩ }
    | none => st
  else st

/-! ### k8sgpt service operations (`services.py`) -/

/-- The active-kubeconfig answer from the kubeconfig service. -/
structure KcInfo where
  path : String
  cluster_name : String

/-- Model of `run_k8sgpt_analysis` (the Store operation): resolve the
active kubeconfig (supplied), check its file exists, build and execute the
k8sgpt command, write the durable `AnalysisResult` row, then best-effort
populate the fast tier with the result wrapper.  The fresh `result_id`
and the process outcome are oracle inputs. -/
def runK8sgptAnalysis (st : AState) (uid : Nat) (p : AnalysisParams) (kc : KcInfo)
    (fileExists : Bool) (ex : ExecOut) (rid : String) :
    Except Err (AnalysisRow × AState) :=
  if !fileExists then .error .notFound
  else
    match executeCommand (buildK8sgptCommand p kc.path) ex with
    | .error e => .error e
    | .ok result =>
      match dumps result with
      | none => .error .internal
      | some rjson =>
        match dumps (paramsPy p) with
        | none => .error .internal
        | some pjson =>
          let row : AnalysisRow :=
            { user_id := uid, cluster_name := kc.cluster_name, nmspace := p.nmspace,
              result_id := rid, result_json := rjson, created_at := st.now,
              parameters := pjson }
          let st₁ := { st with adb := st.adb ++ [row] }
          let wrapper := PyVal.dict [("result_id", .str rid), ("result", result),
            ("parameters", paramsPy p)]
          .ok (row, cache_set st₁ uid ("analysis_result:" ++ rid) wrapper 3600)

/-- First value bound to the key in a dict. -/
def lookupKV : List (String × PyVal) → String → Option PyVal
  | [], _ => none
  | (k, v) :: kvs, key => if k == key then some v else lookupKV kvs key

/-- Key lookup on a dict value. -/
def pyDictGet (v : PyVal) (key : String) : Option PyVal :=
  match v with
  | .dict kvs => lookupKV kvs key
  | _ => none

/-- Model of `get_analysis_result` (the Fetch operation): try the fast
tier under the caller's user id; on a miss (or a falsy cached value),
query the durable store scoped to the caller, rebuild the result dict —
whose `created_at` is a `datetime` object — attempt to repopulate the
fast tier, and return it; 404 when the row is absent. -/
def getAnalysisResult (st : AState) (uid : Nat) (rid : String) :
    Except Err (PyVal × AState) :=
  let ckey := "analysis_result:" ++ rid
  let dbPath : Except Err (PyVal × AState) :=
    match st.adb.find? (fun r => r.user_id == uid && r.result_id == rid) with
    | none => .error .notFound
    | some row =>
      match loads row.result_json with
      | none => .error .internal
      | some resJ =>
        match loads row.parameters with
        | none => .error .internal
        | some parJ =>
          let result := PyVal.dict [("result_id", .str row.result_id),
            ("cluster_name", .str row.cluster_name),
            ("namespace", optStrPy row.nmspace),
            ("result", resJ),
            ("created_at", .datetime row.created_at),
            ("parameters", parJ)]
          .ok (result, cache_set st uid ckey result 3600)
  match cache_get st uid ckey with
  | some cached => if pyTruthy cached then .ok (cached, st) else dbPath
  | none => dbPath

/-- The listing projection of a row: `result_id`, `cluster_name`,
`namespace`, `created_at`, and the parsed `parameters`. -/
structure AnalysisSummary where
  result_id : String
  cluster_name : String
  nmspace : Option String
  created_at : Nat
  parameters : PyVal

/-- Build one listing entry; `none` models `json.loads` raising on the
stored parameters. -/
def summarize (r : AnalysisRow) : Option AnalysisSummary :=
  (loads r.parameters).map (fun parJ =>
    ⟨r.result_id, r.cluster_name, r.nmspace, r.created_at, parJ⟩)

/-- The `ORDER BY created_at DESC` relation. -/
def byCreatedDesc (a b : AnalysisRow) : Prop := b.created_at ≤ a.created_at

instance : DecidableRel byCreatedDesc := fun a b => Nat.decLe _ _

/-- The row window selected by `list_analysis_results`: the caller's rows,
newest first, then `OFFSET`/`LIMIT`. -/
def selectAnalysisRows (adb : List AnalysisRow) (uid limit offset : Nat) :
    List AnalysisRow :=
  (((adb.filter (fun r => r.user_id == uid)).insertionSort byCreatedDesc).drop
    offset).take limit

/-- Model of `list_analysis_results` (the List operation): one durable
query, no cache involvement; fails only if stored parameters fail to
parse. -/
def listAnalysisResults (st : AState) (uid limit offset : Nat) :
    Except Err (List AnalysisSummary) :=
  match (selectAnalysisRows st.adb uid limit offset).mapM summarize with
  | some l => .ok l
  | none => .error .internal

/-- Index of the first row matched by a predicate
(`session.exec(select(...).where(...)).first()` with object identity). -/
def firstIdx (p : α → Bool) : List α → Option Nat
  | [] => none
  | x :: xs => if p x then some 0 else (firstIdx p xs).map (· + 1)

/-- Apply a function to the element at an index. -/
def updateAt : List α → Nat → (α → α) → List α
  | [], _, _ => []
  | x :: xs, 0, f => f x :: xs
  | x :: xs, n + 1, f => x :: updateAt xs n f

/-- Remove the first element matched by a predicate, returning it and the
remaining list. -/
def extractFirst (p : α → Bool) : List α → Option (α × List α)
  | [] => none
  | x :: xs => if p x then some (x, xs) else (extractFirst p xs).map (fun q => (q.1, x :: q.2))

/-- In-place overwrite of an existing backend row by an upsert. -/
def upsertRow (cfgJson : String) (isDef : Bool) (r : BackendRow) : BackendRow :=
  { r with config_json := cfgJson, is_default := isDef }

/-- The fresh backend row inserted by an upsert. -/
def newBackendRow (uid : Nat) (name cfgJson : String) (isDef : Bool) (now : Nat) :
    BackendRow :=
  { user_id := uid, backend_name := name, is_default := isDef,
    config_json := cfgJson, created_at := now, updated_at := now }

/-- The bulk `UPDATE ... SET is_default = false WHERE user_id = :uid AND
backend_name != :name` that follows a default-setting upsert. -/
def clearOthers (uid : Nat) (name : String) (bdb : List BackendRow) : List BackendRow :=
  bdb.map (fun r =>
    if r.user_id == uid && !(r.backend_name == name) then { r with is_default := false }
    else r)

/-- Model of `add_ai_backend` (the Upsert operation): overwrite the
`(owner, name)` row in place or insert a new one, then, when `is_default`
is set, clear the flag on every other backend of the owner. -/
def addAiBackend (bdb : List BackendRow) (uid : Nat) (name cfgJson : String)
    (isDef : Bool) (now : Nat) : List BackendRow :=
  let bdb₁ :=
    match firstIdx (fun r => r.user_id == uid && r.backend_name == name) bdb with
    | some i => updateAt bdb i (upsertRow cfgJson isDef)
    | none => bdb ++ [newBackendRow uid name cfgJson isDef now]
  if isDef then clearOthers uid name bdb₁ else bdb₁

/-- The bulk `UPDATE AIBackendConfig SET is_default = false WHERE user_id = :uid`. -/
def clearDefaults (uid : Nat) (bdb : List BackendRow) : List BackendRow :=
  bdb.map (fun r => if r.user_id == uid then { r with is_default := false } else r)

/-- Flag one backend row default. -/
def defaultRow (r : BackendRow) : BackendRow := { r with is_default := true }

/-- Model of `set_default_ai_backend`: look the target up first (404 when
absent or another owner's), then clear every default of the owner and
flag the target. -/
def setDefaultAiBackend (bdb : List BackendRow) (uid : Nat) (name : String) :
    List BackendRow × Except Err Unit :=
  match firstIdx (fun r => r.user_id == uid && r.backend_name == name) bdb with
  | none => (bdb, .error .notFound)
  | some i =>
    (updateAt (clearDefaults uid bdb) i defaultRow, .ok ())

/-- Model of `get_ai_backend`: owner-scoped lookup, 404 when absent. -/
def getAiBackend (bdb : List BackendRow) (uid : Nat) (name : String) :
    Except Err BackendRow :=
  match bdb.find? (fun r => r.user_id == uid && r.backend_name == name) with
  | none => .error .notFound
  | some b => .ok b

/-- Model of `delete_ai_backend`: owner-scoped lookup, 404 when absent,
else delete the row. -/
def deleteAiBackend (bdb : List BackendRow) (uid : Nat) (name : String) :
    List BackendRow × Except Err Unit :=
  match extractFirst (fun r => r.user_id == uid && r.backend_name == name) bdb with
  | none => (bdb, .error .notFound)
  | some (_, rest) => (rest, .ok ())

/-! ### Kubeconfig credential service (`kubeconfig_service/app/routes.py`,
`tasks.py`).  The on-disk upload directory is a list of paths. -/

/-- One `Kubeconf` row. -/
structure Kubeconf where
  filename : String
  original_filename : String
  user_id : Nat
  active : Bool
  path : String
  cluster_name : Option String
  context_name : Option String
  is_operator_installed : Bool
  created_at : Nat
  updated_at : Nat

/-- The probe command for the cluster name of an uploaded file. -/
def clusterNameCommand (path : String) : String :=
  "kubectl config view --kubeconfig " ++ path ++
    " --minify -o jsonpath=\x27\x7b.clusters[0].name\x7d\x27"

/-- The probe command for the context name of an uploaded file. -/
def contextNameCommand (path : String) : String :=
  "kubectl config view --kubeconfig " ++ path ++
    " --minify -o jsonpath=\x27\x7b.contexts[0].name\x7d\x27"

/-- `result.get("stdout", "").strip()` on the executor's output: the
stripped text when the output is a dict whose `stdout` is a string, the
empty string when the key is absent, and `none` (an `AttributeError`,
surfaced as a 500) when the parsed output is not a dict or the value is
not a string. -/
def probeStdout (v : PyVal) : Option String :=
  match v with
  | .dict kvs =>
    match lookupKV kvs "stdout" with
    | some (.str s) => some (pyStrip s)
    | some _ => none
    | none => some (pyStrip "")
  | _ => none

/-- Model of `upload_kubeconfig`: write the file, probe it for its cluster
and context names, and commit the row with `active = false`.  The blanket
`except Exception` re-raises any probe failure as a 500, so a probe
failure aborts the upload after the file was written: no row is
committed.  The generated unique filename and both process outcomes are
oracle inputs. -/
def uploadKubeconfig (db : List Kubeconf) (fs : List String) (uid : Nat)
    (origName uniqueName uploadDir : String) (now : Nat) (probe1 probe2 : ExecOut) :
    List Kubeconf × List String × Except Err Kubeconf :=
  let path := uploadDir ++ "/" ++ uniqueName
  let fs₁ := path :: fs
  match executeCommand (clusterNameCommand path) probe1 with
  | .error _ => (db, fs₁, .error .internal)
  | .ok r₁ =>
    match probeStdout r₁ with
    | none => (db, fs₁, .error .internal)
    | some clusterName =>
      match executeCommand (contextNameCommand path) probe2 with
      | .error _ => (db, fs₁, .error .internal)
      | .ok r₂ =>
        match probeStdout r₂ with
        | none => (db, fs₁, .error .internal)
        | some contextName =>
          let row : Kubeconf :=
            { filename := uniqueName, original_filename := origName,
              user_id := uid, active := false, path := path,
              cluster_name := some clusterName, context_name := some contextName,
              is_operator_installed := false, created_at := now, updated_at := now }
          (db ++ [row], fs₁, .ok row)

/-- The bulk `UPDATE Kubeconf SET active = false WHERE user_id = :uid`. -/
def deactivateAll (uid : Nat) (db : List Kubeconf) : List Kubeconf :=
  db.map (fun r => if r.user_id == uid then { r with active := false } else r)

/-- Flag one credential row active. -/
def activateRow (r : Kubeconf) : Kubeconf := { r with active := true }

/-- Model of `set_active_kubeconfig` (the Activate operation): look the
target up by filename and owner (404 when absent), then set `active =
false` on every row of the owner and `active = true` on the target, in
one commit. -/
def setActiveKubeconfig (db : List Kubeconf) (uid : Nat) (fn : String) :
    List Kubeconf × Except Err Unit :=
  match firstIdx (fun r => r.filename == fn && r.user_id == uid) db with
  | none => (db, .error .notFound)
  | some i =>
    (updateAt (deactivateAll uid db) i activateRow, .ok ())

/-- Model of `remove_kubeconfig` (the Remove operation): owner-scoped
lookup (404 when absent), then delete the row — even when the backing
file is already gone from disk (`.ok false`); when the file exists,
remove it first (`.ok true`); a disk error rolls everything back. -/
def removeKubeconfig (db : List Kubeconf) (fs : List String) (uid : Nat)
    (fn : String) (diskOk : Bool) : List Kubeconf × List String × Except Err Bool :=
  match extractFirst (fun r => r.filename == fn && r.user_id == uid) db with
  | none => (db, fs, .error .notFound)
  | some (r, rest) =>
    if fs.contains r.path then
      if diskOk then (rest, fs.erase r.path, .ok true)
      else (db, fs, .error .internal)
    else (rest, fs, .ok false)

/-- Model of `validate_kubeconfigs` (the liveness sweep): every row whose
backing file is missing is set inactive; nothing is deleted. -/
def validateKubeconfigs (db : List Kubeconf) (fs : List String) : List Kubeconf :=
  db.map (fun r => if fs.contains r.path then r else { r with active := false })

/-! ### Operation sequences for the single-flag invariants -/

/-- The operations of the two single-flag state machines: credential
upload and activation, backend upsert and set-default. -/
inductive Op where
  | upload (uid : Nat) (origName uniqueName : String) (probe1 probe2 : ExecOut)
  | activate (uid : Nat) (fn : String)
  | upsert (uid : Nat) (name cfgJson : String) (isDef : Bool)
  | setDefault (uid : Nat) (name : String)

/-- Combined state the operations act on. -/
structure SysState where
  kdb : List Kubeconf
  bdb : List BackendRow
  fs : List String

/-- Apply one operation; a failed operation commits nothing beyond what
its model already records (a failed upload still leaves the written
file). -/
def applyOp (s : SysState) : Op → SysState
  | .upload uid orig uniq p1 p2 =>
    let r := uploadKubeconfig s.kdb s.fs uid orig uniq "uploaded_kubeconfigs" 0 p1 p2
    { s with kdb := r.1, fs := r.2.1 }
  | .activate uid fn => { s with kdb := (setActiveKubeconfig s.kdb uid fn).1 }
  | .upsert uid name cfg isDef => { s with bdb := addAiBackend s.bdb uid name cfg isDef 0 }
  | .setDefault uid name => { s with bdb := (setDefaultAiBackend s.bdb uid name).1 }

/-- The empty initial state. -/
def initState : SysState := ⟨[], [], []⟩

/-- Number of active credentials of an owner. -/
def countActive (uid : Nat) (db : List Kubeconf) : Nat :=
  (db.filter (fun r => r.user_id == uid && r.active)).length

/-- Number of default backends of an owner. -/
def countDefault (uid : Nat) (bdb : List BackendRow) : Nat :=
  (bdb.filter (fun r => r.user_id == uid && r.is_default)).length

/-- Number of backends of an owner under one name. -/
def countNamed (uid : Nat) (name : String) (bdb : List BackendRow) : Nat :=
  (bdb.filter (fun r => r.user_id == uid && r.backend_name == name)).length

/-! ### List lemmas for the row-level operations -/

section ListLemmas

variable {α : Type}

theorem updateAt_length (l : List α) (i : Nat) (f : α → α) :
    (updateAt l i f).length = l.length := by
  induction l generalizing i with
  | nil => rfl
  | cons x xs ih =>
    match i with
    | 0 => simp [updateAt]
    | n + 1 => simp [updateAt, ih]

theorem updateAt_get_eq (l : List α) (i : Nat) (f : α → α) (h : i < l.length)
    (h₂ : i < (updateAt l i f).length) :
    (updateAt l i f).get ⟨i, h₂⟩ = f (l.get ⟨i, h⟩) := by
  induction l generalizing i with
  | nil => simp at h
  | cons x xs ih =>
    match i with
    | 0 => rfl
    | n + 1 => exact ih n (by simpa using h) (by simpa [updateAt] using h₂)

theorem updateAt_get_ne (l : List α) (i : Nat) (f : α → α) (j : Nat) (hji : j ≠ i)
    (h : j < l.length) (h₂ : j < (updateAt l i f).length) :
    (updateAt l i f).get ⟨j, h₂⟩ = l.get ⟨j, h⟩ := by
  induction l generalizing i j with
  | nil => simp at h
  | cons x xs ih =>
    match i, j with
    | 0, 0 => exact absurd rfl hji
    | 0, m + 1 => rfl
    | n + 1, 0 => rfl
    | n + 1, m + 1 =>
      exact ih n m (by omega) (by simpa using h) (by simpa [updateAt] using h₂)

theorem firstIdx_none_of (p : α → Bool) (l : List α) (h : ∀ x ∈ l, p x = false) :
    firstIdx p l = none := by
  induction l with
  | nil => rfl
  | cons x xs ih =>
    simp only [firstIdx, h x (by simp), Bool.false_eq_true, if_false]
    rw [ih (fun y hy => h y (by simp [hy]))]
    rfl

theorem firstIdx_spec (p : α → Bool) (l : List α) (i : Nat)
    (h : firstIdx p l = some i) :
    ∃ hlt : i < l.length, p (l.get ⟨i, hlt⟩) = true := by
  induction l generalizing i with
  | nil => simp [firstIdx] at h
  | cons x xs ih =>
    by_cases hx : p x = true
    · simp only [firstIdx, hx, if_true] at h
      cases h
      exact ⟨by simp, hx⟩
    · simp only [firstIdx, hx, if_false] at h
      rcases hidx : firstIdx p xs with _ | n
      · rw [hidx] at h; simp at h
      · rw [hidx] at h
        simp at h
        subst h
        obtain ⟨hlt, hp⟩ := ih n hidx
        refine ⟨?_, hp⟩
        simp only [List.length_cons]
        omega

theorem extractFirst_none_of (p : α → Bool) (l : List α)
    (h : ∀ x ∈ l, p x = false) : extractFirst p l = none := by
  induction l with
  | nil => rfl
  | cons x xs ih =>
    simp only [extractFirst, h x (by simp), Bool.false_eq_true, if_false]
    rw [ih (fun y hy => h y (by simp [hy]))]
    rfl

theorem extractFirst_spec (p : α → Bool) (l : List α) (x : α) (rest : List α)
    (h : extractFirst p l = some (x, rest)) :
    p x = true ∧ ∃ pre post, l = pre ++ x :: post ∧ rest = pre ++ post := by
  induction l generalizing rest with
  | nil => simp [extractFirst] at h
  | cons y ys ih =>
    by_cases hy : p y = true
    · simp only [extractFirst, hy, if_true] at h
      cases h
      exact ⟨hy, [], ys, by simp, by simp⟩
    · simp only [extractFirst, hy, if_false] at h
      rcases hext : extractFirst p ys with _ | q
      · rw [hext] at h; simp at h
      · rw [hext] at h
        simp at h
        obtain ⟨h1, h2⟩ := h
        subst h1
        obtain ⟨hp, pre, post, hl, hr⟩ := ih q.2 (by rw [hext])
        exact ⟨hp, y :: pre, post, by simp [hl], by simp [hr, ← h2]⟩

theorem filterLen_updateAt_le (p : α → Bool) (l : List α) (i : Nat) (f : α → α) :
    ((updateAt l i f).filter p).length ≤ (l.filter p).length + 1 := by
  induction l generalizing i with
  | nil => simp [updateAt]
  | cons x xs ih =>
    match i with
    | 0 =>
      simp only [updateAt, List.filter]
      cases hpf : p (f x) <;> cases hpx : p x <;> simp <;> omega
    | n + 1 =>
      have := ih n
      simp only [updateAt, List.filter]
      cases hpx : p x <;> simp <;> omega

theorem filterLen_updateAt_false (p : α → Bool) (l : List α) (i : Nat) (f : α → α)
    (hb : ∀ hlt : i < l.length, p (l.get ⟨i, hlt⟩) = false ∧
      p (f (l.get ⟨i, hlt⟩)) = false) :
    ((updateAt l i f).filter p).length = (l.filter p).length := by
  induction l generalizing i with
  | nil => rfl
  | cons x xs ih =>
    match i with
    | 0 =>
      have := hb (by simp)
      simp only [List.get] at this
      simp only [updateAt, List.filter, this.1, this.2]
    | n + 1 =>
      have ih₂ := ih n (fun hlt => by
        have := hb (by simpa using Nat.succ_lt_succ hlt)
        simpa using this)
      simp only [updateAt, List.filter]
      cases hpx : p x <;> simp <;> omega

theorem filterLen_updateAt_drop (p : α → Bool) (l : List α) (i : Nat) (f : α → α)
    (hb : ∀ hlt : i < l.length, p (f (l.get ⟨i, hlt⟩)) = false) :
    ((updateAt l i f).filter p).length ≤ (l.filter p).length := by
  induction l generalizing i with
  | nil => simp [updateAt]
  | cons x xs ih =>
    match i with
    | 0 =>
      have := hb (by simp)
      simp only [List.get] at this
      simp only [updateAt, List.filter, this]
      cases hpx : p x <;> simp <;> omega
    | n + 1 =>
      have ih₂ := ih n (fun hlt => by
        have := hb (by simpa using Nat.succ_lt_succ hlt)
        simpa using this)
      simp only [updateAt, List.filter]
      cases hpx : p x <;> simp <;> omega

theorem filterLen_map_zero (p : α → Bool) (f : α → α) (l : List α)
    (h : ∀ x, p (f x) = false) : ((l.map f).filter p).length = 0 := by
  induction l with
  | nil => rfl
  | cons x xs ih => simp only [List.map, List.filter, h x, ih]

theorem filterLen_map_eq (p : α → Bool) (f : α → α) (l : List α)
    (h : ∀ x, p (f x) = p x) : ((l.map f).filter p).length = (l.filter p).length := by
  induction l with
  | nil => rfl
  | cons x xs ih =>
    simp only [List.map, List.filter, h x, ih]
    cases hpx : p x <;> simp [ih]

theorem filterLen_map_le_q (p q : α → Bool) (f : α → α) (l : List α)
    (h : ∀ x, p (f x) = true → q x = true) :
    ((l.map f).filter p).length ≤ (l.filter q).length := by
  induction l with
  | nil => simp
  | cons x xs ih =>
    simp only [List.map, List.filter]
    cases hpf : p (f x)
    · have := ih
      cases hqx : q x <;> simp <;> omega
    · have := ih
      rw [h x hpf]
      simp
      omega

theorem filterLen_append (p : α → Bool) (l₁ l₂ : List α) :
    ((l₁ ++ l₂).filter p).length = (l₁.filter p).length + (l₂.filter p).length := by
  simp [List.filter_append]

end ListLemmas

theorem get_map₂ {α β : Type} (f : α → β) (l : List α) (i : Nat)
    (h : i < l.length) (h₂ : i < (l.map f).length) :
    (l.map f).get ⟨i, h₂⟩ = f (l.get ⟨i, h⟩) := by
  simp

/-! ### Behaviour of activation and default-selection -/

/-- The row predicate of credential lookup. -/
def kcPred (uid : Nat) (fn : String) : Kubeconf → Bool :=
  fun r => r.filename == fn && r.user_id == uid

/-- The row predicate of backend lookup. -/
def bePred (uid : Nat) (name : String) : BackendRow → Bool :=
  fun r => r.user_id == uid && r.backend_name == name

theorem setActive_found {db : List Kubeconf} {uid : Nat} {fn : String} {i : Nat}
    (h : firstIdx (kcPred uid fn) db = some i) :
    setActiveKubeconfig db uid fn = (updateAt (deactivateAll uid db) i activateRow, .ok ()) := by
  unfold setActiveKubeconfig
  rw [show (fun r : Kubeconf => r.filename == fn && r.user_id == uid) = kcPred uid fn from rfl, h]

theorem deactivateAll_get (uid : Nat) (db : List Kubeconf) (i : Nat)
    (h : i < db.length) (h₂ : i < (deactivateAll uid db).length) :
    (deactivateAll uid db).get ⟨i, h₂⟩ =
      (if (db.get ⟨i, h⟩).user_id == uid then { db.get ⟨i, h⟩ with active := false }
       else db.get ⟨i, h⟩) := by
  simp [deactivateAll]

theorem clearDefaults_get (uid : Nat) (bdb : List BackendRow) (i : Nat)
    (h : i < bdb.length) (h₂ : i < (clearDefaults uid bdb).length) :
    (clearDefaults uid bdb).get ⟨i, h₂⟩ =
      (if (bdb.get ⟨i, h⟩).user_id == uid then { bdb.get ⟨i, h⟩ with is_default := false }
       else bdb.get ⟨i, h⟩) := by
  simp [clearDefaults]

theorem setActive_ok_inv {db db₂ : List Kubeconf} {uid : Nat} {fn : String}
    (h : setActiveKubeconfig db uid fn = (db₂, .ok ())) :
    ∃ i, firstIdx (kcPred uid fn) db = some i ∧
      db₂ = updateAt (deactivateAll uid db) i activateRow := by
  rcases hidx : firstIdx (kcPred uid fn) db with _ | i
  · unfold setActiveKubeconfig at h
    rw [show (fun r : Kubeconf => r.filename == fn && r.user_id == uid) = kcPred uid fn
      from rfl, hidx] at h
    simp at h
  · rw [setActive_found hidx] at h
    exact ⟨i, rfl, (congrArg Prod.fst h).symm⟩

theorem countActive_activate_self {db db₂ : List Kubeconf} {uid : Nat} {fn : String}
    (h : setActiveKubeconfig db uid fn = (db₂, .ok ())) :
    countActive uid db₂ ≤ 1 := by
  obtain ⟨i, _, rfl⟩ := setActive_ok_inv h
  have h0 : countActive uid (deactivateAll uid db) = 0 := by
    apply filterLen_map_zero
    intro x
    by_cases hx : x.user_id = uid <;> simp [deactivateAll, hx]
  calc countActive uid _ ≤ countActive uid _ + 1 := filterLen_updateAt_le _ _ _ _
  _ = 1 := by rw [h0]

theorem countActive_activate_other {db db₂ : List Kubeconf} {uid uid₂ : Nat}
    {fn : String} (h : setActiveKubeconfig db uid fn = (db₂, .ok ()))
    (hne : uid₂ ≠ uid) : countActive uid₂ db₂ = countActive uid₂ db := by
  obtain ⟨i, hidx, rfl⟩ := setActive_ok_inv h
  obtain ⟨hlt, hp⟩ := firstIdx_spec _ _ _ hidx
  have huser : (db.get ⟨i, hlt⟩).user_id = uid := by
    simp [kcPred] at hp
    exact hp.2
  have hmap : countActive uid₂ (deactivateAll uid db) = countActive uid₂ db := by
    apply filterLen_map_eq
    intro x
    by_cases hx : x.user_id = uid
    · simp [deactivateAll, hx]
      intro hx₂
      omega
    · simp [deactivateAll, hx]
  rw [← hmap]
  apply filterLen_updateAt_false
  intro hlt₂
  have hlen : i < db.length := by simpa [deactivateAll] using hlt₂
  rw [deactivateAll_get uid db i hlen hlt₂]
  have hne₂ : ¬(uid = uid₂) := fun hh => hne hh.symm
  simp only [List.get_eq_getElem] at huser
  constructor <;> simp [huser, activateRow, hne₂]

theorem filterLen_updateAt_pres {α : Type} (p : α → Bool) (l : List α) (i : Nat)
    (f : α → α) (h : ∀ x, p (f x) = p x) :
    ((updateAt l i f).filter p).length = (l.filter p).length := by
  induction l generalizing i with
  | nil => rfl
  | cons x xs ih =>
    match i with
    | 0 =>
      simp only [updateAt, List.filter, h x]
      cases hpx : p x <;> simp
    | n + 1 =>
      have := ih n
      simp only [updateAt, List.filter]
      cases hpx : p x <;> simp [this]

theorem firstIdx_none_all {α : Type} (p : α → Bool) (l : List α)
    (h : firstIdx p l = none) : ∀ x ∈ l, p x = false := by
  induction l with
  | nil => simp
  | cons x xs ih =>
    by_cases hx : p x = true
    · simp [firstIdx, hx] at h
    · intro y hy
      rcases List.mem_cons.mp hy with hy | hy
      · subst hy; simpa using hx
      · refine ih ?_ y hy
        simp only [firstIdx, hx, Bool.false_eq_true, if_false] at h
        rcases hidx : firstIdx p xs with _ | n
        · rfl
        · rw [hidx] at h; simp at h

theorem filterLen_zero_of_all_false {α : Type} (p : α → Bool) (l : List α)
    (h : ∀ x ∈ l, p x = false) : (l.filter p).length = 0 := by
  induction l with
  | nil => rfl
  | cons x xs ih =>
    simp only [List.filter, h x (by simp)]
    exact ih (fun y hy => h y (by simp [hy]))

/-- The predicate counted by `countNamed`. -/
theorem countNamed_clearOthers (u : Nat) (n : String) (uid : Nat) (name : String)
    (l : List BackendRow) :
    countNamed u n (clearOthers uid name l) = countNamed u n l := by
  apply filterLen_map_eq
  intro x
  by_cases hx : x.user_id = uid <;> by_cases hn : x.backend_name = name <;>
    simp [hx, hn]

theorem countDefault_clearOthers_other {u uid : Nat} (name : String)
    (l : List BackendRow) (hu : u ≠ uid) :
    countDefault u (clearOthers uid name l) = countDefault u l := by
  apply filterLen_map_eq
  intro x
  by_cases hx : x.user_id = uid
  · have h₂ : (uid == u) = false := by
      simp
      exact fun hh => hu hh.symm
    by_cases hn : x.backend_name = name <;> simp [hx, hn, h₂]
  · simp [hx]

theorem countDefault_clearOthers_self (uid : Nat) (name : String)
    (l : List BackendRow) :
    countDefault uid (clearOthers uid name l) ≤ countNamed uid name l := by
  apply filterLen_map_le_q
  intro x
  by_cases hx : x.user_id = uid <;> by_cases hn : x.backend_name = name <;>
    simp [hx, hn]

theorem countNamed_updateAt_upsert (u : Nat) (n : String) (l : List BackendRow)
    (i : Nat) (cfg : String) (isDef : Bool) :
    countNamed u n (updateAt l i (upsertRow cfg isDef)) = countNamed u n l := by
  apply filterLen_updateAt_pres
  intro x
  rfl

theorem countNamed_append_new (u : Nat) (n : String) (l : List BackendRow)
    (uid : Nat) (name cfg : String) (isDef : Bool) (now : Nat) :
    countNamed u n (l ++ [newBackendRow uid name cfg isDef now]) =
      countNamed u n l + (if u = uid ∧ n = name then 1 else 0) := by
  rw [show countNamed u n (l ++ [newBackendRow uid name cfg isDef now]) =
    countNamed u n l + countNamed u n [newBackendRow uid name cfg isDef now]
    from filterLen_append _ _ _]
  congr 1
  by_cases hu : u = uid ∧ n = name
  · simp [countNamed, newBackendRow, hu.1, hu.2, hu]
  · rw [if_neg hu]
    have hft : ((uid == u) && (name == n)) = false := by
      by_cases h1 : uid = u <;> by_cases h2 : name = n <;> simp [h1, h2]
      exact absurd ⟨h1.symm, h2.symm⟩ hu
    simp [countNamed, newBackendRow, List.filter, hft]

theorem countDefault_append (u : Nat) (l₁ l₂ : List BackendRow) :
    countDefault u (l₁ ++ l₂) = countDefault u l₁ + countDefault u l₂ :=
  filterLen_append _ _ _

theorem addAiBackend_insert {bdb : List BackendRow} {uid : Nat} {name : String}
    (cfg : String) (isDef : Bool) (now : Nat)
    (hidx : firstIdx (bePred uid name) bdb = none) :
    addAiBackend bdb uid name cfg isDef now =
      (if isDef then clearOthers uid name (bdb ++ [newBackendRow uid name cfg isDef now])
       else bdb ++ [newBackendRow uid name cfg isDef now]) := by
  unfold addAiBackend
  rw [show (fun r : BackendRow => r.user_id == uid && r.backend_name == name) =
    bePred uid name from rfl, hidx]

theorem addAiBackend_update {bdb : List BackendRow} {uid : Nat} {name : String}
    {i : Nat} (cfg : String) (isDef : Bool) (now : Nat)
    (hidx : firstIdx (bePred uid name) bdb = some i) :
    addAiBackend bdb uid name cfg isDef now =
      (if isDef then clearOthers uid name (updateAt bdb i (upsertRow cfg isDef))
       else updateAt bdb i (upsertRow cfg isDef)) := by
  unfold addAiBackend
  rw [show (fun r : BackendRow => r.user_id == uid && r.backend_name == name) =
    bePred uid name from rfl, hidx]

/-- `countNamed` stays ≤ 1 across an upsert. -/
theorem countNamed_upsert {bdb : List BackendRow} {uid : Nat} {name cfg : String}
    {isDef : Bool} {now : Nat}
    (hN : ∀ u n, countNamed u n bdb ≤ 1) :
    ∀ u n, countNamed u n (addAiBackend bdb uid name cfg isDef now) ≤ 1 := by
  intro u n
  have step1 : ∀ bdb₁ : List BackendRow, countNamed u n bdb₁ ≤ 1 →
      countNamed u n (if isDef then clearOthers uid name bdb₁ else bdb₁) ≤ 1 := by
    intro bdb₁ h₁
    cases isDef
    · simpa using h₁
    · simpa [countNamed_clearOthers] using h₁
  rcases hidx : firstIdx (bePred uid name) bdb with _ | i
  · rw [addAiBackend_insert cfg isDef now hidx]
    apply step1
    rw [countNamed_append_new]
    by_cases hu : u = uid ∧ n = name
    · have h0 : countNamed u n bdb = 0 := by
        apply filterLen_zero_of_all_false
        intro x hx
        have := firstIdx_none_all _ _ hidx x hx
        simpa [bePred, countNamed, hu.1, hu.2] using this
      rw [h0, if_pos hu]
    · rw [if_neg hu]
      simpa using hN u n
  · rw [addAiBackend_update cfg isDef now hidx]
    apply step1
    rw [countNamed_updateAt_upsert]
    exact hN u n

/-- `countDefault` stays ≤ 1 across an upsert. -/
theorem countDefault_upsert {bdb : List BackendRow} {uid : Nat} {name cfg : String}
    {isDef : Bool} {now : Nat}
    (hD : ∀ u, countDefault u bdb ≤ 1)
    (hN : ∀ u n, countNamed u n bdb ≤ 1) :
    ∀ u, countDefault u (addAiBackend bdb uid name cfg isDef now) ≤ 1 := by
  intro u
  rcases hidx : firstIdx (bePred uid name) bdb with _ | i
  · -- insert path
    rw [addAiBackend_insert cfg isDef now hidx]
    have hN₁ : countNamed uid name (bdb ++ [newBackendRow uid name cfg isDef now]) ≤ 1 := by
      rw [countNamed_append_new]
      have h0 : countNamed uid name bdb = 0 := by
        apply filterLen_zero_of_all_false
        intro x hx
        have := firstIdx_none_all _ _ hidx x hx
        simpa [bePred, countNamed] using this
      rw [h0]
      simp
    cases isDef
    · simp only [Bool.false_eq_true, if_false]
      rw [countDefault_append]
      have h1 : countDefault u [newBackendRow uid name cfg false now] = 0 := by
        simp [countDefault, newBackendRow, List.filter]
      rw [h1]
      simpa using hD u
    · simp only [if_true]
      by_cases hu : u = uid
      · subst hu
        calc countDefault u (clearOthers u name (bdb ++ [newBackendRow u name cfg true now]))
            ≤ countNamed u name (bdb ++ [newBackendRow u name cfg true now]) :=
              countDefault_clearOthers_self _ _ _
        _ ≤ 1 := hN₁
      · rw [countDefault_clearOthers_other _ _ hu]
        rw [countDefault_append]
        have h1 : countDefault u [newBackendRow uid name cfg true now] = 0 := by
          have hf : ((uid == u) && true) = false := by
            simp
            exact fun hh => hu hh.symm
          simp [countDefault, newBackendRow, List.filter, hf]
        rw [h1]
        simpa using hD u
  · -- in-place update path
    rw [addAiBackend_update cfg isDef now hidx]
    obtain ⟨hlt, hp⟩ := firstIdx_spec _ _ _ hidx
    have huser : (bdb.get ⟨i, hlt⟩).user_id = uid := by
      simp [bePred] at hp
      exact hp.1
    simp only [List.get_eq_getElem] at huser
    cases isDef
    · simp only [Bool.false_eq_true, if_false]
      calc countDefault u (updateAt bdb i (upsertRow cfg false))
          ≤ countDefault u bdb := by
            apply filterLen_updateAt_drop
            intro hlt₂
            simp [upsertRow]
      _ ≤ 1 := hD u
    · simp only [if_true]
      by_cases hu : u = uid
      · subst hu
        calc countDefault u (clearOthers u name (updateAt bdb i (upsertRow cfg true)))
            ≤ countNamed u name (updateAt bdb i (upsertRow cfg true)) :=
              countDefault_clearOthers_self _ _ _
        _ = countNamed u name bdb := countNamed_updateAt_upsert _ _ _ _ _ _
        _ ≤ 1 := hN u name
      · rw [countDefault_clearOthers_other _ _ hu]
        have hne₂ : (uid == u) = false := by
          simp
          exact fun hh => hu hh.symm
        have heq : countDefault u (updateAt bdb i (upsertRow cfg true)) =
            countDefault u bdb := by
          apply filterLen_updateAt_false
          intro hlt₂
          constructor
          · simp [countDefault, huser, hne₂]
          · simp [upsertRow, huser, hne₂]
        rw [heq]
        exact hD u

theorem setDefault_found {bdb : List BackendRow} {uid : Nat} {name : String} {i : Nat}
    (h : firstIdx (bePred uid name) bdb = some i) :
    setDefaultAiBackend bdb uid name = (updateAt (clearDefaults uid bdb) i defaultRow, .ok ()) := by
  unfold setDefaultAiBackend
  rw [show (fun r : BackendRow => r.user_id == uid && r.backend_name == name) = bePred uid name
    from rfl, h]

theorem setDefault_ok_inv {bdb bdb₂ : List BackendRow} {uid : Nat} {name : String}
    (h : setDefaultAiBackend bdb uid name = (bdb₂, .ok ())) :
    ∃ i, firstIdx (bePred uid name) bdb = some i ∧
      bdb₂ = updateAt (clearDefaults uid bdb) i defaultRow := by
  rcases hidx : firstIdx (bePred uid name) bdb with _ | i
  · unfold setDefaultAiBackend at h
    rw [show (fun r : BackendRow => r.user_id == uid && r.backend_name == name) = bePred uid name
      from rfl, hidx] at h
    simp at h
  · rw [setDefault_found hidx] at h
    exact ⟨i, rfl, (congrArg Prod.fst h).symm⟩

theorem countDefault_setDefault_self {bdb bdb₂ : List BackendRow} {uid : Nat}
    {name : String} (h : setDefaultAiBackend bdb uid name = (bdb₂, .ok ())) :
    countDefault uid bdb₂ ≤ 1 := by
  obtain ⟨i, _, rfl⟩ := setDefault_ok_inv h
  have h0 : countDefault uid (clearDefaults uid bdb) = 0 := by
    apply filterLen_map_zero
    intro x
    by_cases hx : x.user_id = uid <;> simp [clearDefaults, hx]
  calc countDefault uid _ ≤ countDefault uid _ + 1 := filterLen_updateAt_le _ _ _ _
  _ = 1 := by rw [h0]

theorem countDefault_setDefault_other {bdb bdb₂ : List BackendRow} {uid uid₂ : Nat}
    {name : String} (h : setDefaultAiBackend bdb uid name = (bdb₂, .ok ()))
    (hne : uid₂ ≠ uid) : countDefault uid₂ bdb₂ = countDefault uid₂ bdb := by
  obtain ⟨i, hidx, rfl⟩ := setDefault_ok_inv h
  obtain ⟨hlt, hp⟩ := firstIdx_spec _ _ _ hidx
  have huser : (bdb.get ⟨i, hlt⟩).user_id = uid := by
    simp [bePred] at hp
    exact hp.1
  have hmap : countDefault uid₂ (clearDefaults uid bdb) = countDefault uid₂ bdb := by
    apply filterLen_map_eq
    intro x
    by_cases hx : x.user_id = uid
    · simp [clearDefaults, hx]
      intro hx₂
      omega
    · simp [clearDefaults, hx]
  rw [← hmap]
  apply filterLen_updateAt_false
  intro hlt₂
  have hlen : i < bdb.length := by simpa [clearDefaults] using hlt₂
  rw [clearDefaults_get uid bdb i hlen hlt₂]
  have hne₂ : ¬(uid = uid₂) := fun hh => hne hh.symm
  simp only [List.get_eq_getElem] at huser
  constructor <;> simp [huser, defaultRow, hne₂]

theorem setActive_none {db : List Kubeconf} {uid : Nat} {fn : String}
    (h : firstIdx (kcPred uid fn) db = none) :
    setActiveKubeconfig db uid fn = (db, .error .notFound) := by
  unfold setActiveKubeconfig
  rw [show (fun r : Kubeconf => r.filename == fn && r.user_id == uid) = kcPred uid fn
    from rfl, h]

theorem setDefault_none {bdb : List BackendRow} {uid : Nat} {name : String}
    (h : firstIdx (bePred uid name) bdb = none) :
    setDefaultAiBackend bdb uid name = (bdb, .error .notFound) := by
  unfold setDefaultAiBackend
  rw [show (fun r : BackendRow => r.user_id == uid && r.backend_name == name) =
    bePred uid name from rfl, h]

theorem countActive_append (u : Nat) (l₁ l₂ : List Kubeconf) :
    countActive u (l₁ ++ l₂) = countActive u l₁ + countActive u l₂ :=
  filterLen_append _ _ _

theorem countNamed_setDefault_fst (bdb : List BackendRow) (uid : Nat) (name : String)
    (u : Nat) (n : String) :
    countNamed u n (setDefaultAiBackend bdb uid name).1 = countNamed u n bdb := by
  rcases hidx : firstIdx (bePred uid name) bdb with _ | i
  · rw [setDefault_none hidx]
  · rw [setDefault_found hidx]
    show ((updateAt (clearDefaults uid bdb) i defaultRow).filter
      (fun r => r.user_id == u && r.backend_name == n)).length =
      (bdb.filter (fun r => r.user_id == u && r.backend_name == n)).length
    rw [filterLen_updateAt_pres _ _ _ _ (fun x => by rfl)]
    apply filterLen_map_eq
    intro x
    by_cases hx : x.user_id = uid <;> simp [hx]

theorem upload_kdb_cases (db : List Kubeconf) (fs : List String) (uid : Nat)
    (o u d : String) (n : Nat) (p1 p2 : ExecOut) :
    (uploadKubeconfig db fs uid o u d n p1 p2).1 = db ∨
    ∃ row : Kubeconf, row.active = false ∧
      (uploadKubeconfig db fs uid o u d n p1 p2).1 = db ++ [row] := by
  rcases h1 : executeCommand (clusterNameCommand (d ++ "/" ++ u)) p1 with e | r₁
  · simp [uploadKubeconfig, h1]
  · rcases h2 : probeStdout r₁ with _ | cn
    · simp [uploadKubeconfig, h1, h2]
    · rcases h3 : executeCommand (contextNameCommand (d ++ "/" ++ u)) p2 with e | r₂
      · simp [uploadKubeconfig, h1, h2, h3]
      · rcases h4 : probeStdout r₂ with _ | ctx
        · simp [uploadKubeconfig, h1, h2, h3, h4]
        · right
          refine ⟨⟨u, o, uid, false, d ++ "/" ++ u, some cn, some ctx, false, n, n⟩,
            rfl, ?_⟩
          simp [uploadKubeconfig, h1, h2, h3, h4]

/-- The combined single-flag invariant, plus the uniqueness of backend
names per owner that the upsert relies on. -/
def InvS (s : SysState) : Prop :=
  (∀ uid, countActive uid s.kdb ≤ 1) ∧
  (∀ uid, countDefault uid s.bdb ≤ 1) ∧
  (∀ uid name, countNamed uid name s.bdb ≤ 1)

theorem invS_init : InvS initState :=
  ⟨fun _ => by simp [countActive, initState, List.filter],
   fun _ => by simp [countDefault, initState, List.filter],
   fun _ _ => by simp [countNamed, initState, List.filter]⟩

theorem invS_applyOp {s : SysState} (h : InvS s) (op : Op) : InvS (applyOp s op) := by
  obtain ⟨hA, hD, hN⟩ := h
  cases op with
  | upload uid o u p1 p2 =>
    refine ⟨?_, hD, hN⟩
    intro u₂
    show countActive u₂ (uploadKubeconfig s.kdb s.fs uid o u "uploaded_kubeconfigs" 0 p1 p2).1 ≤ 1
    rcases upload_kdb_cases s.kdb s.fs uid o u "uploaded_kubeconfigs" 0 p1 p2 with hc | ⟨row, hact, hc⟩
    · rw [hc]; exact hA u₂
    · rw [hc, countActive_append]
      have h0 : countActive u₂ [row] = 0 := by
        simp [countActive, List.filter, hact]
      rw [h0]
      simpa using hA u₂
  | activate uid fn =>
    refine ⟨?_, hD, hN⟩
    intro u₂
    show countActive u₂ (setActiveKubeconfig s.kdb uid fn).1 ≤ 1
    rcases hidx : firstIdx (kcPred uid fn) s.kdb with _ | i
    · rw [setActive_none hidx]
      exact hA u₂
    · rw [setActive_found hidx]
      by_cases hu : u₂ = uid
      · subst hu
        exact countActive_activate_self (setActive_found hidx)
      · rw [show countActive u₂ (updateAt (deactivateAll uid s.kdb) i activateRow,
          (Except.ok () : Except Err Unit)).1 = countActive u₂ s.kdb from
          countActive_activate_other (setActive_found hidx) hu]
        exact hA u₂
  | upsert uid name cfg isDef =>
    exact ⟨hA, countDefault_upsert hD hN, countNamed_upsert hN⟩
  | setDefault uid name =>
    refine ⟨hA, ?_, ?_⟩
    · intro u₂
      show countDefault u₂ (setDefaultAiBackend s.bdb uid name).1 ≤ 1
      rcases hidx : firstIdx (bePred uid name) s.bdb with _ | i
      · rw [setDefault_none hidx]
        exact hD u₂
      · rw [setDefault_found hidx]
        by_cases hu : u₂ = uid
        · subst hu
          exact countDefault_setDefault_self (setDefault_found hidx)
        · rw [show countDefault u₂ (updateAt (clearDefaults uid s.bdb) i defaultRow,
            (Except.ok () : Except Err Unit)).1 = countDefault u₂ s.bdb from
            countDefault_setDefault_other (setDefault_found hidx) hu]
          exact hD u₂
    · intro u₂ n₂
      show countNamed u₂ n₂ (setDefaultAiBackend s.bdb uid name).1 ≤ 1
      rw [countNamed_setDefault_fst]
      exact hN u₂ n₂

theorem invS_foldl : ∀ (ops : List Op) (s : SysState), InvS s →
    InvS (ops.foldl applyOp s) := by
  intro ops
  induction ops with
  | nil => intro s h; exact h
  | cons op t ih => intro s h; exact ih (applyOp s op) (invS_applyOp h op)

/-- A successful activation flags exactly the looked-up row among the
owner's credentials. -/
theorem activate_exact {db db₂ : List Kubeconf} {uid : Nat} {fn : String}
    (h : setActiveKubeconfig db uid fn = (db₂, .ok ())) :
    db₂.length = db.length ∧
    ∃ i, ∃ hi : i < db.length,
      (db.get ⟨i, hi⟩).filename = fn ∧ (db.get ⟨i, hi⟩).user_id = uid ∧
      ∀ j (hj : j < db.length) (hj₂ : j < db₂.length),
        (db.get ⟨j, hj⟩).user_id = uid →
        ((db₂.get ⟨j, hj₂⟩).active = true ↔ j = i) := by
  obtain ⟨i, hidx, rfl⟩ := setActive_ok_inv h
  obtain ⟨hlt, hp⟩ := firstIdx_spec _ _ _ hidx
  simp only [kcPred, Bool.and_eq_true, beq_iff_eq] at hp
  have hlen : (updateAt (deactivateAll uid db) i activateRow).length = db.length := by
    rw [updateAt_length]
    simp [deactivateAll]
  refine ⟨hlen, i, hlt, hp.1, hp.2, ?_⟩
  intro j hj hj₂ huser
  have hjd : j < (deactivateAll uid db).length := by simpa [deactivateAll] using hj
  by_cases hji : j = i
  · subst hji
    rw [updateAt_get_eq _ _ _ hjd hj₂]
    simp [activateRow]
  · rw [updateAt_get_ne _ _ _ _ hji hjd hj₂]
    rw [deactivateAll_get uid db j hj hjd]
    simp only [List.get_eq_getElem] at huser
    simp [huser, hji]

/-- A successful default-selection flags exactly the looked-up row among
the owner's backends. -/
theorem setDefault_exact {bdb bdb₂ : List BackendRow} {uid : Nat} {name : String}
    (h : setDefaultAiBackend bdb uid name = (bdb₂, .ok ())) :
    bdb₂.length = bdb.length ∧
    ∃ i, ∃ hi : i < bdb.length,
      (bdb.get ⟨i, hi⟩).backend_name = name ∧ (bdb.get ⟨i, hi⟩).user_id = uid ∧
      ∀ j (hj : j < bdb.length) (hj₂ : j < bdb₂.length),
        (bdb.get ⟨j, hj⟩).user_id = uid →
        ((bdb₂.get ⟨j, hj₂⟩).is_default = true ↔ j = i) := by
  obtain ⟨i, hidx, rfl⟩ := setDefault_ok_inv h
  obtain ⟨hlt, hp⟩ := firstIdx_spec _ _ _ hidx
  simp only [bePred, Bool.and_eq_true, beq_iff_eq] at hp
  have hlen : (updateAt (clearDefaults uid bdb) i defaultRow).length = bdb.length := by
    rw [updateAt_length]
    simp [clearDefaults]
  refine ⟨hlen, i, hlt, hp.2, hp.1, ?_⟩
  intro j hj hj₂ huser
  have hjd : j < (clearDefaults uid bdb).length := by simpa [clearDefaults] using hj
  by_cases hji : j = i
  · subst hji
    rw [updateAt_get_eq _ _ _ hjd hj₂]
    simp [defaultRow]
  · rw [updateAt_get_ne _ _ _ _ hji hjd hj₂]
    rw [clearDefaults_get uid bdb j hj hjd]
    simp only [List.get_eq_getElem] at huser
    simp [huser, hji]

/-! ### Settling the claims -/

/-- A request whose `namespace` parameter carries shell metacharacters. -/
def injectionParams : AnalysisParams :=
  { defaultParams with nmspace := some "; rm -rf /" }

/-- The same request with a plain one-word namespace. -/
def benignParams : AnalysisParams :=
  { defaultParams with nmspace := some "prod" }

/-- Claim C1: every parameter value reaches the external program as a
single literal token without altering the argument count and without shell
evaluation.  The code concatenates the raw value into the command string
with an f-string and then tokenizes it with `shlex.split`, so the
namespace value `"; rm -rf /"` is split into the four tokens `;`, `rm`,
`-rf`, `/` and never appears as a single argv entry: the argument vector
grows from 8 entries to 11.  (No shell evaluation occurs —
`subprocess.run` gets a list — but the single-token and unchanged-count
parts of the claim fail.) -/
theorem claim_C1 :
    (spawnOf (buildK8sgptCommand injectionParams "/tmp/kc.yaml")).map SpawnCall.argv =
      some ["k8sgpt", "analyze", "--namespace", ";", "rm", "-rf", "/",
        "--output", "json", "--kubeconfig", "/tmp/kc.yaml"] ∧
    "; rm -rf /" ∉ ["k8sgpt", "analyze", "--namespace", ";", "rm", "-rf", "/",
        "--output", "json", "--kubeconfig", "/tmp/kc.yaml"] ∧
    (spawnOf (buildK8sgptCommand benignParams "/tmp/kc.yaml")).map
      (fun c => c.argv.length) = some 8 ∧
    (spawnOf (buildK8sgptCommand injectionParams "/tmp/kc.yaml")).map
      (fun c => c.argv.length) = some 11 ∧
    (spawnOf (buildK8sgptCommand injectionParams "/tmp/kc.yaml")).map
      SpawnCall.usedShell = some false :=
  ⟨rfl, by decide, rfl, rfl, rfl⟩

/-- Claim C3: an activation (credential activate or backend set-default)
whose target identifier is unknown to the owner — it does not exist or
belongs to a different owner — fails with NotFound and leaves the table
completely unchanged: no row flag is touched. -/
theorem claim_C3 :
    (∀ (db : List Kubeconf) (uid : Nat) (fn : String),
      (∀ r ∈ db, ¬(r.filename = fn ∧ r.user_id = uid)) →
      setActiveKubeconfig db uid fn = (db, .error .notFound)) ∧
    (∀ (bdb : List BackendRow) (uid : Nat) (name : String),
      (∀ r ∈ bdb, ¬(r.user_id = uid ∧ r.backend_name = name)) →
      setDefaultAiBackend bdb uid name = (bdb, .error .notFound)) := by
  constructor
  · intro db uid fn h
    apply setActive_none
    apply firstIdx_none_of
    intro x hx
    have hx₂ := h x hx
    show (x.filename == fn && x.user_id == uid) = false
    by_cases h1 : x.filename = fn
    · by_cases h2 : x.user_id = uid
      · exact absurd ⟨h1, h2⟩ hx₂
      · simp [h2]
    · simp [h1]
  · intro bdb uid name h
    apply setDefault_none
    apply firstIdx_none_of
    intro x hx
    have hx₂ := h x hx
    show (x.user_id == uid && x.backend_name == name) = false
    by_cases h1 : x.user_id = uid
    · by_cases h2 : x.backend_name = name
      · exact absurd ⟨h1, h2⟩ hx₂
      · simp [h2]
    · simp [h1]

/-- A credential row owned by user 2. -/
def kcOther : Kubeconf :=
  ⟨"a.yaml", "orig.yaml", 2, false, "uploaded_kubeconfigs/a.yaml", none, none,
    false, 0, 0⟩

/-- A backend row owned by user 2. -/
def beOther : BackendRow := ⟨2, "openai", false, "\x7b\x7d", 0, 0⟩

theorem claim_C3_witness :
    setActiveKubeconfig [kcOther] 1 "a.yaml" = ([kcOther], .error .notFound) ∧
    setDefaultAiBackend [beOther] 1 "openai" = ([beOther], .error .notFound) :=
  ⟨claim_C3.1 [kcOther] 1 "a.yaml" (by decide),
   claim_C3.2 [beOther] 1 "openai" (by decide)⟩

/-- A stored analysis row of user 1. -/
def c4row : AnalysisRow := ⟨1, "c1", none, "rid-1", "[]", 5, "\x7b\x7d"⟩

/-- k8sgpt-service state: one durable row, empty cache, Redis up. -/
def c4st : AState := ⟨[c4row], [], [], true, 10⟩

/-- The result dict `get_analysis_result` rebuilds from `c4row`; its
`created_at` is a `datetime` object. -/
def c4dict : PyVal :=
  .dict [("result_id", .str "rid-1"), ("cluster_name", .str "c1"),
    ("namespace", .null), ("result", .list []),
    ("created_at", .datetime 5), ("parameters", .dict [])]

/-- A backend row of user 1 for the cross-tenant lookups. -/
def c4backend : BackendRow := ⟨1, "openai", false, "\x7b\x7d", 0, 0⟩

/-- Claim C4: Fetch checks the fast tier first, and on a miss reads the
durable store and repopulates the fast tier before returning; lookups are
owner-scoped.  The miss/read/owner-scoping parts hold, but the repopulate
step never succeeds: the rebuilt dict contains a `datetime` value, so the
`json.dumps` inside `cache_set` raises, the exception is swallowed, and
the state comes back with the cache still empty (`.ok (c4dict, c4st)`
where `c4st.cache = []`). -/
theorem claim_C4 :
    cache_get c4st 1 "analysis_result:rid-1" = none ∧
    getAnalysisResult c4st 1 "rid-1" = .ok (c4dict, c4st) ∧
    c4st.cache = [] ∧
    getAnalysisResult c4st 2 "rid-1" = .error .notFound ∧
    getAnalysisResult c4st 1 "missing" = .error .notFound ∧
    getAiBackend [c4backend] 2 "openai" = .error .notFound ∧
    deleteAiBackend [c4backend] 2 "openai" = ([c4backend], .error .notFound) :=
  ⟨rfl, rfl, rfl, rfl, rfl, rfl, rfl⟩

/-- Claim C2: for every owner, after any sequence of upload, activation,
backend-upsert and set-default operations from the empty state, at most
one of the owner's credential rows is active and at most one of the
owner's backend rows is default; and a successful activation
(set-default) flags exactly the looked-up row among the owner's rows,
leaving every sibling unflagged. -/
theorem claim_C2 :
    (∀ (ops : List Op) (uid : Nat),
      countActive uid (ops.foldl applyOp initState).kdb ≤ 1 ∧
      countDefault uid (ops.foldl applyOp initState).bdb ≤ 1) ∧
    (∀ (db db₂ : List Kubeconf) (uid : Nat) (fn : String),
      setActiveKubeconfig db uid fn = (db₂, .ok ()) →
      db₂.length = db.length ∧
      ∃ i, ∃ hi : i < db.length,
        (db.get ⟨i, hi⟩).filename = fn ∧ (db.get ⟨i, hi⟩).user_id = uid ∧
        ∀ j (hj : j < db.length) (hj₂ : j < db₂.length),
          (db.get ⟨j, hj⟩).user_id = uid →
          ((db₂.get ⟨j, hj₂⟩).active = true ↔ j = i)) ∧
    (∀ (bdb bdb₂ : List BackendRow) (uid : Nat) (name : String),
      setDefaultAiBackend bdb uid name = (bdb₂, .ok ()) →
      bdb₂.length = bdb.length ∧
      ∃ i, ∃ hi : i < bdb.length,
        (bdb.get ⟨i, hi⟩).backend_name = name ∧ (bdb.get ⟨i, hi⟩).user_id = uid ∧
        ∀ j (hj : j < bdb.length) (hj₂ : j < bdb₂.length),
          (bdb.get ⟨j, hj⟩).user_id = uid →
          ((bdb₂.get ⟨j, hj₂⟩).is_default = true ↔ j = i)) :=
  ⟨fun ops uid => ⟨(invS_foldl ops initState invS_init).1 uid,
      (invS_foldl ops initState invS_init).2.1 uid⟩,
   fun _ _ _ _ h => activate_exact h,
   fun _ _ _ _ h => setDefault_exact h⟩

/-- A credential row owned by user 1. -/
def kcMine : Kubeconf :=
  ⟨"a.yaml", "orig.yaml", 1, false, "uploaded_kubeconfigs/a.yaml", none, none,
    false, 0, 0⟩

/-- The same row after activation. -/
def kcMineActive : Kubeconf := { kcMine with active := true }

/-- A backend row owned by user 1. -/
def beMine : BackendRow := ⟨1, "openai", false, "\x7b\x7d", 0, 0⟩

/-- The same row after set-default. -/
def beMineDefault : BackendRow := { beMine with is_default := true }

/-- A small operation sequence: upsert a default backend, then re-select
it as the default. -/
def c2ops : List Op := [Op.upsert 1 "openai" "\x7b\x7d" true, Op.setDefault 1 "openai"]

theorem claim_C2_witness :
    (countActive 1 (c2ops.foldl applyOp initState).kdb ≤ 1 ∧
     countDefault 1 (c2ops.foldl applyOp initState).bdb ≤ 1) ∧
    (([kcMineActive] : List Kubeconf).length = ([kcMine] : List Kubeconf).length ∧
     ∃ i, ∃ hi : i < ([kcMine] : List Kubeconf).length,
       (([kcMine] : List Kubeconf).get ⟨i, hi⟩).filename = "a.yaml" ∧
       (([kcMine] : List Kubeconf).get ⟨i, hi⟩).user_id = 1 ∧
       ∀ j (hj : j < ([kcMine] : List Kubeconf).length)
         (hj₂ : j < ([kcMineActive] : List Kubeconf).length),
         (([kcMine] : List Kubeconf).get ⟨j, hj⟩).user_id = 1 →
         ((([kcMineActive] : List Kubeconf).get ⟨j, hj₂⟩).active = true ↔ j = i)) ∧
    (([beMineDefault] : List BackendRow).length = ([beMine] : List BackendRow).length ∧
     ∃ i, ∃ hi : i < ([beMine] : List BackendRow).length,
       (([beMine] : List BackendRow).get ⟨i, hi⟩).backend_name = "openai" ∧
       (([beMine] : List BackendRow).get ⟨i, hi⟩).user_id = 1 ∧
       ∀ j (hj : j < ([beMine] : List BackendRow).length)
         (hj₂ : j < ([beMineDefault] : List BackendRow).length),
         (([beMine] : List BackendRow).get ⟨j, hj⟩).user_id = 1 →
         ((([beMineDefault] : List BackendRow).get ⟨j, hj₂⟩).is_default = true ↔ j = i)) :=
  ⟨claim_C2.1 c2ops 1,
   claim_C2.2.1 [kcMine] [kcMineActive] 1 "a.yaml" rfl,
   claim_C2.2.2 [beMine] [beMineDefault] 1 "openai" rfl⟩

/-- Claim C7: removing a credential whose backing file is already gone
from disk still deletes the database row and answers success (the removal
reports that no file was deleted); an identifier that is unknown or owned
by someone else fails NotFound with nothing changed. -/
theorem claim_C7 :
    (∀ (db : List Kubeconf) (fs : List String) (uid : Nat) (fn : String)
       (diskOk : Bool) (r : Kubeconf) (rest : List Kubeconf),
      extractFirst (fun x => x.filename == fn && x.user_id == uid) db = some (r, rest) →
      r.path ∉ fs →
      removeKubeconfig db fs uid fn diskOk = (rest, fs, .ok false) ∧
      ∃ pre post, db = pre ++ r :: post ∧ rest = pre ++ post) ∧
    (∀ (db : List Kubeconf) (fs : List String) (uid : Nat) (fn : String)
       (diskOk : Bool),
      (∀ x ∈ db, ¬(x.filename = fn ∧ x.user_id = uid)) →
      removeKubeconfig db fs uid fn diskOk = (db, fs, .error .notFound)) := by
  constructor
  · intro db fs uid fn diskOk r rest hext hnot
    have hcont : fs.contains r.path = false := by simpa using hnot
    constructor
    · unfold removeKubeconfig
      rw [hext]
      simp [hcont]
      exact fun hm => absurd hm hnot
    · obtain ⟨_, pre, post, h1, h2⟩ := extractFirst_spec _ _ _ _ hext
      exact ⟨pre, post, h1, h2⟩
  · intro db fs uid fn diskOk h
    unfold removeKubeconfig
    rw [extractFirst_none_of _ _ ?_]
    intro x hx
    have hx₂ := h x hx
    show (x.filename == fn && x.user_id == uid) = false
    by_cases h1 : x.filename = fn
    · by_cases h2 : x.user_id = uid
      · exact absurd ⟨h1, h2⟩ hx₂
      · simp [h2]
    · simp [h1]

theorem claim_C7_witness :
    (removeKubeconfig [kcMine] [] 1 "a.yaml" true = ([], [], .ok false) ∧
     ∃ pre post, [kcMine] = pre ++ kcMine :: post ∧ ([] : List Kubeconf) = pre ++ post) ∧
    removeKubeconfig [kcOther] [] 1 "a.yaml" true = ([kcOther], [], .error .notFound) :=
  ⟨claim_C7.1 [kcMine] [] 1 "a.yaml" true kcMine [] rfl (by decide),
   claim_C7.2 [kcOther] [] 1 "a.yaml" true (by decide)⟩

theorem validateKubeconfigs_get (db : List Kubeconf) (fs : List String) (j : Nat)
    (hj : j < db.length) (hj₂ : j < (validateKubeconfigs db fs).length) :
    (validateKubeconfigs db fs).get ⟨j, hj₂⟩ =
      (if fs.contains (db.get ⟨j, hj⟩).path then db.get ⟨j, hj⟩
       else { db.get ⟨j, hj⟩ with active := false }) := by
  simp [validateKubeconfigs]

/-- Claim C8: one liveness-sweep cycle keeps every row (same length, no
deletion); a row whose backing file is on disk is left unchanged, and a
row whose file is gone is exactly the old row with `active` set to
false. -/
theorem claim_C8 :
    ∀ (db : List Kubeconf) (fs : List String),
      (validateKubeconfigs db fs).length = db.length ∧
      ∀ (j : Nat) (r : Kubeconf), db[j]? = some r →
        ((r.path ∈ fs → (validateKubeconfigs db fs)[j]? = some r) ∧
         (r.path ∉ fs → (validateKubeconfigs db fs)[j]? =
           some { r with active := false })) := by
  intro db fs
  refine ⟨by simp [validateKubeconfigs], ?_⟩
  intro j r hdb
  rcases List.getElem?_eq_some_iff.mp hdb with ⟨hj, hv⟩
  have hj₂ : j < (validateKubeconfigs db fs).length := by
    simpa [validateKubeconfigs] using hj
  have h3 : db.get ⟨j, hj⟩ = r := by simpa [List.get_eq_getElem] using hv
  constructor
  · intro hmem
    have hc : fs.contains r.path = true := by simpa using hmem
    apply List.getElem?_eq_some_iff.mpr
    refine ⟨hj₂, ?_⟩
    show (validateKubeconfigs db fs).get ⟨j, hj₂⟩ = r
    rw [validateKubeconfigs_get db fs j hj hj₂, h3]
    simp [hc]
    exact fun hm => absurd hmem hm
  · intro hmem
    have hc : fs.contains r.path = false := by simpa using hmem
    apply List.getElem?_eq_some_iff.mpr
    refine ⟨hj₂, ?_⟩
    show (validateKubeconfigs db fs).get ⟨j, hj₂⟩ = { r with active := false }
    rw [validateKubeconfigs_get db fs j hj hj₂, h3]
    simp [hc]
    exact fun hm => absurd hm hmem

/-- A second credential of user 1 whose backing file is gone. -/
def kcGone : Kubeconf :=
  ⟨"b.yaml", "orig2.yaml", 1, true, "uploaded_kubeconfigs/b.yaml", none, none,
    false, 0, 0⟩

theorem claim_C8_witness :
    (validateKubeconfigs [kcMine, kcGone] ["uploaded_kubeconfigs/a.yaml"]).length =
      ([kcMine, kcGone] : List Kubeconf).length ∧
    (validateKubeconfigs [kcMine, kcGone] ["uploaded_kubeconfigs/a.yaml"])[0]? =
      some kcMine ∧
    (validateKubeconfigs [kcMine, kcGone] ["uploaded_kubeconfigs/a.yaml"])[1]? =
      some { kcGone with active := false } := by
  have h := claim_C8 [kcMine, kcGone] ["uploaded_kubeconfigs/a.yaml"]
  exact ⟨h.1,
    (h.2 0 kcMine rfl).1 (by decide),
    (h.2 1 kcGone rfl).2 (by decide)⟩

/-- Claim C10: activating a credential or setting a default backend for
one owner never changes another owner's rows: the table keeps its length
and every row whose `user_id` differs from the caller is returned
unchanged at its position. -/
theorem claim_C10 :
    (∀ (db : List Kubeconf) (uid : Nat) (fn : String),
      (setActiveKubeconfig db uid fn).1.length = db.length ∧
      ∀ (j : Nat) (r : Kubeconf), db[j]? = some r → r.user_id ≠ uid →
        (setActiveKubeconfig db uid fn).1[j]? = some r) ∧
    (∀ (bdb : List BackendRow) (uid : Nat) (name : String),
      (setDefaultAiBackend bdb uid name).1.length = bdb.length ∧
      ∀ (j : Nat) (r : BackendRow), bdb[j]? = some r → r.user_id ≠ uid →
        (setDefaultAiBackend bdb uid name).1[j]? = some r) := by
  constructor
  · intro db uid fn
    rcases hidx : firstIdx (kcPred uid fn) db with _ | i
    · rw [setActive_none hidx]
      exact ⟨rfl, fun j r hdb _ => hdb⟩
    · rw [setActive_found hidx]
      constructor
      · show (updateAt (deactivateAll uid db) i activateRow).length = db.length
        rw [updateAt_length]
        simp [deactivateAll]
      · intro j r hdb hne
        rcases List.getElem?_eq_some_iff.mp hdb with ⟨hj, hv⟩
        have h3 : db.get ⟨j, hj⟩ = r := by simpa [List.get_eq_getElem] using hv
        obtain ⟨hlt, hp⟩ := firstIdx_spec _ _ _ hidx
        have huser : (db.get ⟨i, hlt⟩).user_id = uid := by
          simp only [kcPred, Bool.and_eq_true, beq_iff_eq] at hp
          exact hp.2
        have hji : j ≠ i := by
          intro hh
          subst hh
          exact hne (h3 ▸ huser)
        have hjd : j < (deactivateAll uid db).length := by simpa [deactivateAll] using hj
        have hju : j < (updateAt (deactivateAll uid db) i activateRow).length := by
          rw [updateAt_length]; exact hjd
        apply List.getElem?_eq_some_iff.mpr
        refine ⟨hju, ?_⟩
        show (updateAt (deactivateAll uid db) i activateRow).get ⟨j, hju⟩ = r
        rw [updateAt_get_ne _ _ _ _ hji hjd hju]
        rw [deactivateAll_get uid db j hj hjd]
        simp only [List.get_eq_getElem, hv]
        simp [hne]
  · intro bdb uid name
    rcases hidx : firstIdx (bePred uid name) bdb with _ | i
    · rw [setDefault_none hidx]
      exact ⟨rfl, fun j r hdb _ => hdb⟩
    · rw [setDefault_found hidx]
      constructor
      · show (updateAt (clearDefaults uid bdb) i defaultRow).length = bdb.length
        rw [updateAt_length]
        simp [clearDefaults]
      · intro j r hdb hne
        rcases List.getElem?_eq_some_iff.mp hdb with ⟨hj, hv⟩
        have h3 : bdb.get ⟨j, hj⟩ = r := by simpa [List.get_eq_getElem] using hv
        obtain ⟨hlt, hp⟩ := firstIdx_spec _ _ _ hidx
        have huser : (bdb.get ⟨i, hlt⟩).user_id = uid := by
          simp only [bePred, Bool.and_eq_true, beq_iff_eq] at hp
          exact hp.1
        have hji : j ≠ i := by
          intro hh
          subst hh
          exact hne (h3 ▸ huser)
        have hjd : j < (clearDefaults uid bdb).length := by simpa [clearDefaults] using hj
        have hju : j < (updateAt (clearDefaults uid bdb) i defaultRow).length := by
          rw [updateAt_length]; exact hjd
        apply List.getElem?_eq_some_iff.mpr
        refine ⟨hju, ?_⟩
        show (updateAt (clearDefaults uid bdb) i defaultRow).get ⟨j, hju⟩ = r
        rw [updateAt_get_ne _ _ _ _ hji hjd hju]
        rw [clearDefaults_get uid bdb j hj hjd]
        simp only [List.get_eq_getElem, hv]
        simp [hne]

theorem claim_C10_witness :
    ((setActiveKubeconfig [kcMine, kcOther] 1 "a.yaml").1.length =
      ([kcMine, kcOther] : List Kubeconf).length ∧
     (setActiveKubeconfig [kcMine, kcOther] 1 "a.yaml").1[1]? = some kcOther) ∧
    ((setDefaultAiBackend [beMine, beOther] 1 "openai").1.length =
      ([beMine, beOther] : List BackendRow).length ∧
     (setDefaultAiBackend [beMine, beOther] 1 "openai").1[1]? = some beOther) := by
  have h1 := claim_C10.1 [kcMine, kcOther] 1 "a.yaml"
  have h2 := claim_C10.2 [beMine, beOther] 1 "openai"
  exact ⟨⟨h1.1, h1.2 1 kcOther rfl (by decide)⟩,
    ⟨h2.1, h2.2 1 beOther rfl (by decide)⟩⟩

instance : IsTotal AnalysisRow byCreatedDesc := ⟨fun a b => le_total b.created_at a.created_at⟩

instance : IsTrans AnalysisRow byCreatedDesc := ⟨fun _ _ _ hab hbc => le_trans hbc hab⟩

theorem mapM_summarize_created : ∀ (rows : List AnalysisRow) (l : List AnalysisSummary),
    rows.mapM summarize = some l →
    l.map AnalysisSummary.created_at = rows.map AnalysisRow.created_at := by
  intro rows
  induction rows with
  | nil =>
    intro l h
    have h₂ : some ([] : List AnalysisSummary) = some l := h
    cases h₂
    rfl
  | cons x xs ih =>
    intro l h
    rw [List.mapM_cons] at h
    rcases hx : summarize x with _ | y
    · rw [hx] at h
      simp at h
    · rw [hx] at h
      rcases hxs : xs.mapM summarize with _ | ys
      · rw [hxs] at h
        simp at h
      · rw [hxs] at h
        simp at h
        subst h
        have hy : y.created_at = x.created_at := by
          unfold summarize at hx
          rcases hpj : loads x.parameters with _ | pj
          · rw [hpj] at hx; simp at hx
          · rw [hpj] at hx
            simp at hx
            rw [← hx]
        simp [hy, ih ys hxs]

theorem selectAnalysisRows_sorted (adb : List AnalysisRow) (uid limit offset : Nat) :
    List.Pairwise byCreatedDesc (selectAnalysisRows adb uid limit offset) := by
  unfold selectAnalysisRows
  exact List.Pairwise.sublist ((List.take_sublist _ _).trans (List.drop_sublist _ _))
    (List.sorted_insertionSort byCreatedDesc _)

/-- Claim C9: the listing is produced from the durable store alone — its
answer is invariant under any change to the cache contents, the Redis
connectivity flag and the clock — the returned summaries are ordered by
creation time descending, the selected rows all belong to the calling
owner, and at most `limit` rows are returned. -/
theorem claim_C9 :
    (∀ (st : AState) (c : List CacheEntry) (ru : Bool) (t uid limit offset : Nat),
      listAnalysisResults { st with cache := c, redisUp := ru, now := t } uid limit offset =
        listAnalysisResults st uid limit offset) ∧
    (∀ (st : AState) (uid limit offset : Nat) (l : List AnalysisSummary),
      listAnalysisResults st uid limit offset = .ok l →
      List.Pairwise (fun a b : AnalysisSummary => b.created_at ≤ a.created_at) l) ∧
    (∀ (adb : List AnalysisRow) (uid limit offset : Nat),
      (∀ r ∈ selectAnalysisRows adb uid limit offset, r.user_id = uid) ∧
      (selectAnalysisRows adb uid limit offset).length ≤ limit) := by
  refine ⟨fun st c ru t uid limit offset => rfl, ?_, ?_⟩
  · intro st uid limit offset l h
    unfold listAnalysisResults at h
    rcases hm : (selectAnalysisRows st.adb uid limit offset).mapM summarize with _ | l₂
    · rw [hm] at h
      simp at h
    · rw [hm] at h
      simp at h
      subst h
      have h1 := selectAnalysisRows_sorted st.adb uid limit offset
      have h2 : List.Pairwise (fun a b : Nat => b ≤ a)
          ((selectAnalysisRows st.adb uid limit offset).map AnalysisRow.created_at) :=
        (List.pairwise_map).mpr h1
      rw [← mapM_summarize_created _ _ hm] at h2
      exact (List.pairwise_map).mp h2
  · intro adb uid limit offset
    constructor
    · intro r hr
      have hsort : r ∈ (adb.filter (fun x => x.user_id == uid)).insertionSort byCreatedDesc := by
        unfold selectAnalysisRows at hr
        exact ((List.take_sublist _ _).trans (List.drop_sublist _ _)).mem hr
      have hfil : r ∈ adb.filter (fun x => x.user_id == uid) :=
        (List.perm_insertionSort byCreatedDesc _).mem_iff.mp hsort
      have := (List.mem_filter.mp hfil).2
      simpa using this
    · exact List.length_take_le _ _

/-- An older analysis row of user 1. -/
def c9row1 : AnalysisRow := ⟨1, "c1", none, "r1", "[]", 1, "\x7b\x7d"⟩

/-- A newer analysis row of user 1. -/
def c9row2 : AnalysisRow := ⟨1, "c1", none, "r2", "[]", 7, "\x7b\x7d"⟩

/-- An analysis row of user 2. -/
def c9other : AnalysisRow := ⟨2, "c2", none, "r3", "[]", 5, "\x7b\x7d"⟩

/-- k8sgpt-service state for the listing witness. -/
def st9 : AState := ⟨[c9row1, c9row2, c9other], [], [], true, 0⟩

/-- The two summaries the listing returns, newest first. -/
def c9sum2 : AnalysisSummary := ⟨"r2", "c1", none, 7, .dict []⟩

/-- The older summary. -/
def c9sum1 : AnalysisSummary := ⟨"r1", "c1", none, 1, .dict []⟩

/-- The witness state with noise in the cache, Redis down and the clock
moved: the listing must not see any of it. -/
def st9noise : AState :=
  { st9 with
      cache := [⟨"user:1:analysis_result:r1", "0", 99⟩],
      redisUp := false,
      now := 42 }

theorem claim_C9_witness :
    listAnalysisResults st9noise 1 10 0 = listAnalysisResults st9 1 10 0 ∧
    List.Pairwise (fun a b : AnalysisSummary => b.created_at ≤ a.created_at)
      [c9sum2, c9sum1] ∧
    (∀ r ∈ selectAnalysisRows [c9row1, c9row2, c9other] 1 10 0, r.user_id = 1) ∧
    (selectAnalysisRows [c9row1, c9row2, c9other] 1 10 0).length ≤ 10 :=
  ⟨claim_C9.1 st9 [⟨"user:1:analysis_result:r1", "0", 99⟩] false 42 1 10 0,
   claim_C9.2.1 st9 1 10 0 [c9sum2, c9sum1] rfl,
   (claim_C9.2.2 [c9row1, c9row2, c9other] 1 10 0).1,
   (claim_C9.2.2 [c9row1, c9row2, c9other] 1 10 0).2⟩

/-- A failing probe outcome (non-zero exit). -/
def c6probeFail : ExecOut := ⟨false, "", "boom"⟩

/-- A succeeding probe outcome. -/
def c6probeOk : ExecOut := ⟨true, "ctx", ""⟩

/-- Claim C6 counterexample: the claim says a cluster-name/context-name
probe failure leaves those fields null, does not fail the upload, and the
record is committed with `active = false`.  On this concrete input — a
cluster-name probe that exits non-zero — the upload instead answers a 500
and commits no record at all (only the written file remains). -/
theorem claim_C6_counterexample :
    uploadKubeconfig [] [] 1 "kc.yaml" "u1.yaml" "uploaded_kubeconfigs" 0
      c6probeFail c6probeOk =
      ([], ["uploaded_kubeconfigs/u1.yaml"], .error .internal) ∧
    ¬ ∃ row : Kubeconf,
      (uploadKubeconfig [] [] 1 "kc.yaml" "u1.yaml" "uploaded_kubeconfigs" 0
        c6probeFail c6probeOk).2.2 = .ok row := by
  refine ⟨rfl, ?_⟩
  rintro ⟨row, h⟩
  exact Except.noConfusion h

/-- Claim C6 (amended): upload writes the file to disk first in every
case; a probe failure does not leave the name fields null — the blanket
`except Exception` turns it into a 500 and no credential record is
committed; when both probes succeed the record is committed with
`active = false` and both name fields set to the stripped probe output,
never null. -/
theorem claim_C6 :
    ∀ (db : List Kubeconf) (fs : List String) (uid : Nat) (o u d : String)
      (n : Nat) (p1 p2 : ExecOut),
      (uploadKubeconfig db fs uid o u d n p1 p2).2.1 = (d ++ "/" ++ u) :: fs ∧
      (p1.exitOk = false →
        uploadKubeconfig db fs uid o u d n p1 p2 =
          (db, (d ++ "/" ++ u) :: fs, .error .internal)) ∧
      (∀ row, (uploadKubeconfig db fs uid o u d n p1 p2).2.2 = .ok row →
        (uploadKubeconfig db fs uid o u d n p1 p2).1 = db ++ [row] ∧
        row.active = false ∧ row.user_id = uid ∧ row.filename = u ∧
        row.path = d ++ "/" ++ u ∧
        ∃ cn ctx, row.cluster_name = some cn ∧ row.context_name = some ctx) := by
  intro db fs uid o u d n p1 p2
  refine ⟨?_, ?_, ?_⟩
  · rcases h1 : executeCommand (clusterNameCommand (d ++ "/" ++ u)) p1 with e | r₁
    · simp [uploadKubeconfig, h1]
    · rcases h2 : probeStdout r₁ with _ | cn
      · simp [uploadKubeconfig, h1, h2]
      · rcases h3 : executeCommand (contextNameCommand (d ++ "/" ++ u)) p2 with e | r₂
        · simp [uploadKubeconfig, h1, h2, h3]
        · rcases h4 : probeStdout r₂ with _ | ctx
          · simp [uploadKubeconfig, h1, h2, h3, h4]
          · simp [uploadKubeconfig, h1, h2, h3, h4]
  · intro hp1
    have herr : ∃ e, executeCommand (clusterNameCommand (d ++ "/" ++ u)) p1 = .error e := by
      unfold executeCommand
      rcases shlexSplit (clusterNameCommand (d ++ "/" ++ u)) with _ | args
      · exact ⟨.internal, rfl⟩
      · exact ⟨.commandFailed p1.stderr, by simp [hp1]⟩
    obtain ⟨e, he⟩ := herr
    simp [uploadKubeconfig, he]
  · intro row hok
    rcases h1 : executeCommand (clusterNameCommand (d ++ "/" ++ u)) p1 with e | r₁
    · simp [uploadKubeconfig, h1] at hok
    · rcases h2 : probeStdout r₁ with _ | cn
      · simp [uploadKubeconfig, h1, h2] at hok
      · rcases h3 : executeCommand (contextNameCommand (d ++ "/" ++ u)) p2 with e | r₂
        · simp [uploadKubeconfig, h1, h2, h3] at hok
        · rcases h4 : probeStdout r₂ with _ | ctx
          · simp [uploadKubeconfig, h1, h2, h3, h4] at hok
          · have hok₂ : row =
                ⟨u, o, uid, false, d ++ "/" ++ u, some cn, some ctx, false, n, n⟩ := by
              simp [uploadKubeconfig, h1, h2, h3, h4] at hok
              exact hok.symm
            subst hok₂
            refine ⟨?_, rfl, rfl, rfl, rfl, cn, ctx, rfl, rfl⟩
            simp [uploadKubeconfig, h1, h2, h3, h4]

/-- A succeeding cluster-name probe whose stdout needs stripping. -/
def c6probeCluster : ExecOut := ⟨true, " mycluster ", ""⟩

/-- A succeeding context-name probe. -/
def c6probeContext : ExecOut := ⟨true, "kind-mycluster", ""⟩

/-- The credential record a fully successful upload commits. -/
def c6rowOk : Kubeconf :=
  ⟨"u1.yaml", "kc.yaml", 1, false, "uploaded_kubeconfigs/u1.yaml",
    some "mycluster", some "kind-mycluster", false, 0, 0⟩

theorem claim_C6_witness :
    (uploadKubeconfig [] [] 1 "kc.yaml" "u1.yaml" "uploaded_kubeconfigs" 0
        c6probeFail c6probeOk).2.1 = ["uploaded_kubeconfigs/u1.yaml"] ∧
    uploadKubeconfig [] [] 1 "kc.yaml" "u1.yaml" "uploaded_kubeconfigs" 0
        c6probeFail c6probeOk =
      ([], ["uploaded_kubeconfigs/u1.yaml"], .error .internal) ∧
    ((uploadKubeconfig [] [] 1 "kc.yaml" "u1.yaml" "uploaded_kubeconfigs" 0
        c6probeCluster c6probeContext).1 = [] ++ [c6rowOk] ∧
      c6rowOk.active = false ∧ c6rowOk.user_id = 1 ∧ c6rowOk.filename = "u1.yaml" ∧
      c6rowOk.path = "uploaded_kubeconfigs" ++ "/" ++ "u1.yaml" ∧
      ∃ cn ctx, c6rowOk.cluster_name = some cn ∧ c6rowOk.context_name = some ctx) := by
  have h := claim_C6 [] [] 1 "kc.yaml" "u1.yaml" "uploaded_kubeconfigs" 0
    c6probeFail c6probeOk
  have h₂ := claim_C6 [] [] 1 "kc.yaml" "u1.yaml" "uploaded_kubeconfigs" 0
    c6probeCluster c6probeContext
  exact ⟨h.1, h.2.1 rfl, h₂.2.2 c6rowOk rfl⟩

theorem cache_set_now (st : AState) (uid : Nat) (key : String) (v : PyVal)
    (e : Nat) : (cache_set st uid key v e).now = st.now := by
  unfold cache_set
  split
  · split <;> rfl
  · rfl

theorem cache_set_adb (st : AState) (uid : Nat) (key : String) (v : PyVal)
    (e : Nat) : (cache_set st uid key v e).adb = st.adb := by
  unfold cache_set
  split
  · split <;> rfl
  · rfl

theorem cache_set_get_fresh (st : AState) (uid : Nat) (key : String) (v : PyVal)
    (s : String) (hredis : st.redisUp = true) (hd : dumps v = some s)
    (hne : (s == "") = false) :
    cache_get (cache_set st uid key v 3600) uid key = some v := by
  simp only [cache_set, hredis, if_true, hd]
  simp [cache_get, cacheInsert, cacheLookup, hredis, hne, loads_dumps hd]

theorem cache_set_get_expired (st : AState) (uid : Nat) (key : String) (v : PyVal)
    (s : String) (t : Nat) (hredis : st.redisUp = true) (hd : dumps v = some s)
    (ht : st.now + 3600 ≤ t) :
    cache_get { cache_set st uid key v 3600 with now := t } uid key = none := by
  simp only [cache_set, hredis, if_true, hd]
  have hnlt : ¬ (t < st.now + 3600) := by omega
  simp [cache_get, cacheInsert, cacheLookup, hredis, hnlt]

theorem getAnalysisResult_hit (st : AState) (uid : Nat) (rid : String) (w : PyVal)
    (hhit : cache_get st uid ("analysis_result:" ++ rid) = some w)
    (htru : pyTruthy w = true) :
    getAnalysisResult st uid rid = .ok (w, st) := by
  simp [getAnalysisResult, hhit, htru]

theorem getAnalysisResult_db (st : AState) (uid : Nat) (rid : String)
    (hmiss : cache_get st uid ("analysis_result:" ++ rid) = none)
    (row : AnalysisRow)
    (hfind : st.adb.find? (fun r => r.user_id == uid && r.result_id == rid) = some row)
    (resJ parJ : PyVal) (hres : loads row.result_json = some resJ)
    (hpar : loads row.parameters = some parJ) :
    ∃ st₃, getAnalysisResult st uid rid = .ok (.dict [("result_id", .str row.result_id),
      ("cluster_name", .str row.cluster_name), ("namespace", optStrPy row.nmspace),
      ("result", resJ), ("created_at", .datetime row.created_at),
      ("parameters", parJ)], st₃) := by
  refine ⟨cache_set st uid ("analysis_result:" ++ rid)
    (.dict [("result_id", .str row.result_id),
      ("cluster_name", .str row.cluster_name), ("namespace", optStrPy row.nmspace),
      ("result", resJ), ("created_at", .datetime row.created_at),
      ("parameters", parJ)]) 3600, ?_⟩
  simp [getAnalysisResult, hmiss, hfind, hres, hpar]

/-- Claim C5: after a successful Store (a run with Redis up and a fresh
result id), the JSON payload is the same whether Fetch serves it from the
fast tier — which the first Fetch hits, returning the state untouched —
or, once the fast-tier entry has expired, from the durable store; and the
common payload serializes to exactly the bytes kept in the durable row
(byte-identical round-trip). -/
theorem claim_C5 :
    ∀ (st : AState) (uid : Nat) (p : AnalysisParams) (kc : KcInfo) (ex : ExecOut)
      (rid : String) (row : AnalysisRow) (st₁ : AState),
      runK8sgptAnalysis st uid p kc true ex rid = .ok (row, st₁) →
      st.redisUp = true →
      (∀ r ∈ st.adb, ¬(r.user_id = uid ∧ r.result_id = rid)) →
      ∃ j : PyVal,
        dumps j = some row.result_json ∧
        (∃ w, cache_get st₁ uid ("analysis_result:" ++ rid) = some w ∧
          getAnalysisResult st₁ uid rid = .ok (w, st₁) ∧
          pyDictGet w "result" = some j) ∧
        (∀ t, st₁.now + 3600 ≤ t →
          cache_get { st₁ with now := t } uid ("analysis_result:" ++ rid) = none ∧
          ∃ d₂ st₃, getAnalysisResult { st₁ with now := t } uid rid = .ok (d₂, st₃) ∧
            pyDictGet d₂ "result" = some j) := by
  intro st uid p kc ex rid row st₁ hrun hredis hfresh
  rcases hexec : executeCommand (buildK8sgptCommand p kc.path) ex with e | result
  · simp [runK8sgptAnalysis, hexec] at hrun
  rcases hdr : dumps result with _ | rjson
  · simp [runK8sgptAnalysis, hexec, hdr] at hrun
  rcases hdp : dumps (paramsPy p) with _ | pjson
  · simp [runK8sgptAnalysis, hexec, hdr, hdp] at hrun
  simp only [runK8sgptAnalysis, Bool.not_true, Bool.false_eq_true, if_false,
    hexec, hdr, hdp] at hrun
  rw [Except.ok.injEq, Prod.mk.injEq] at hrun
  obtain ⟨hrow, hst⟩ := hrun
  subst hrow
  subst hst
  have hdrv : dumpVal result = some rjson.data := by
    rcases hv : dumpVal result with _ | cs
    · simp [dumps, hv] at hdr
    · have h₂ : (⟨cs⟩ : String) = rjson := by simpa [dumps, hv] using hdr
      subst h₂
      rfl
  have hdpv : dumpVal (paramsPy p) = some pjson.data := by
    rcases hv : dumpVal (paramsPy p) with _ | cs
    · simp [dumps, hv] at hdp
    · have h₂ : (⟨cs⟩ : String) = pjson := by simpa [dumps, hv] using hdp
      subst h₂
      rfl
  have hsr : dumpVal (PyVal.str rid) = some ('"' :: escapeChars rid.data ++ ['"']) := rfl
  obtain ⟨wm, hwm⟩ : ∃ c, dumpMembers [("result_id", PyVal.str rid), ("result", result),
      ("parameters", paramsPy p)] = some c := by
    simp [dumpMembers, hsr, hdrv, hdpv]
  set rowlit : AnalysisRow :=
    { user_id := uid, cluster_name := kc.cluster_name, nmspace := p.nmspace,
      result_id := rid, result_json := rjson, created_at := st.now,
      parameters := pjson } with hrldef
  set stB : AState := { st with adb := st.adb ++ [rowlit] } with hsbdef
  set w : PyVal :=
    PyVal.dict [("result_id", PyVal.str rid), ("result", result),
      ("parameters", paramsPy p)] with hwdef
  have hredisB : stB.redisUp = true := by rw [hsbdef]; exact hredis
  have hwv : dumps w = some ⟨'\x7b' :: wm ++ ['\x7d']⟩ := by
    rw [hwdef]
    simp [dumps, dumpVal, hwm]
  have hsne : ((⟨'\x7b' :: wm ++ ['\x7d']⟩ : String) == "") = false := by
    apply beq_eq_false_iff_ne.mpr
    intro hh
    have h₂ := congrArg String.data hh
    simp at h₂
  have htru : pyTruthy w = true := by rw [hwdef]; rfl
  have hk1 : (("result_id" : String) == "result") = false := by decide
  have hk2 : (("cluster_name" : String) == "result") = false := by decide
  have hk3 : (("namespace" : String) == "result") = false := by decide
  refine ⟨result, ?_, ?_, ?_⟩
  · rw [hrldef]
    exact hdr
  · have hhit := cache_set_get_fresh stB uid ("analysis_result:" ++ rid) w
      ⟨'\x7b' :: wm ++ ['\x7d']⟩ hredisB hwv hsne
    refine ⟨w, hhit,
      getAnalysisResult_hit (cache_set stB uid ("analysis_result:" ++ rid) w 3600)
        uid rid w hhit htru, ?_⟩
    rw [hwdef]
    simp [pyDictGet, lookupKV, hk1]
  · intro t ht
    rw [cache_set_now] at ht
    have hmiss := cache_set_get_expired stB uid ("analysis_result:" ++ rid) w
      ⟨'\x7b' :: wm ++ ['\x7d']⟩ t hredisB hwv ht
    refine ⟨?_, ?_⟩
    · exact hmiss
    · have hnone : st.adb.find? (fun r => r.user_id == uid && r.result_id == rid) = none := by
        apply List.find?_eq_none.mpr
        intro x hx hpx
        apply hfresh x hx
        simpa using hpx
      have hadb : ({ cache_set stB uid ("analysis_result:" ++ rid) w 3600
          with now := t } : AState).adb = st.adb ++ [rowlit] := by
        simp [cache_set_adb, hsbdef]
      have hpl : (fun r : AnalysisRow => r.user_id == uid && r.result_id == rid) rowlit
          = true := by
        rw [hrldef]
        simp
      have hfind : ({ cache_set stB uid ("analysis_result:" ++ rid) w 3600
          with now := t } : AState).adb.find?
            (fun r => r.user_id == uid && r.result_id == rid) = some rowlit := by
        rw [hadb, List.find?_append, hnone]
        simp [List.find?, hpl]
      have hres : loads rowlit.result_json = some result := by
        rw [hrldef]
        exact loads_dumps hdr
      have hpar : loads rowlit.parameters = some (paramsPy p) := by
        rw [hrldef]
        exact loads_dumps hdp
      obtain ⟨st₃, hga⟩ := getAnalysisResult_db
        { cache_set stB uid ("analysis_result:" ++ rid) w 3600 with now := t }
        uid rid hmiss rowlit hfind result (paramsPy p) hres hpar
      refine ⟨_, st₃, hga, ?_⟩
      simp [pyDictGet, lookupKV, hk1, hk2, hk3]

/-- Empty k8sgpt-service state with Redis up. -/
def c5st0 : AState := ⟨[], [], [], true, 0⟩

/-- The active kubeconfig answer used by the Store witness. -/
def c5kc : KcInfo := ⟨"/tmp/kc.yaml", "c1"⟩

/-- A successful k8sgpt run whose stdout is the empty JSON array. -/
def c5ex : ExecOut := ⟨true, "[]", ""⟩

/-- The serialized default parameters, as `json.dumps` renders them. -/
def c5paramsJson : String :=
  "\x7b\"anonymize\": false, \"backend\": null, \"custom_analysis\": false, \"custom_headers\": null, \"explain\": false, \"filter_analyzers\": null, \"interactive\": false, \"language\": \"english\", \"max_concurrency\": 10, \"namespace\": null, \"no_cache\": false, \"output_format\": \"text\", \"selector\": null, \"with_doc\": false\x7d"

/-- The durable row the Store witness commits. -/
def c5row : AnalysisRow := ⟨1, "c1", none, "r1", "[]", 0, c5paramsJson⟩

/-- The wrapper JSON the Store witness caches. -/
def c5wrapJson : String :=
  "\x7b\"result_id\": \"r1\", \"result\": [], \"parameters\": " ++ c5paramsJson ++ "\x7d"

/-- The state after the Store witness: one durable row and one fresh
cache entry. -/
def c5st1 : AState :=
  ⟨[c5row], [], [⟨"user:1:analysis_result:r1", c5wrapJson, 3600⟩], true, 0⟩

set_option maxRecDepth 100000 in
theorem claim_C5_witness :
    ∃ j : PyVal,
      dumps j = some c5row.result_json ∧
      (∃ w, cache_get c5st1 1 ("analysis_result:" ++ "r1") = some w ∧
        getAnalysisResult c5st1 1 "r1" = .ok (w, c5st1) ∧
        pyDictGet w "result" = some j) ∧
      (∀ t, c5st1.now + 3600 ≤ t →
        cache_get { c5st1 with now := t } 1 ("analysis_result:" ++ "r1") = none ∧
        ∃ d₂ st₃, getAnalysisResult { c5st1 with now := t } 1 "r1" = .ok (d₂, st₃) ∧
          pyDictGet d₂ "result" = some j) :=
  claim_C5 c5st0 1 defaultParams c5kc c5ex "r1" c5row c5st1 rfl rfl (by simp [c5st0])

end KubeSage
